import Mathlib

/-!
Verification of the debt payoff simulation engine of `clear-path-payoff`
(`src/app/layout.tsx`: `rankAccounts`, `simulatePayoff` and their helpers).

The engine is embedded shallowly: JavaScript numbers become exact rationals
(`ℚ`), the mutable working state becomes explicit state passing, and the
month loop becomes a fuel-indexed recursion (the fuel is the loop bound
`monthsCap`, so no behaviour is lost).  JavaScript `Array.prototype.sort`
is stable, and the comparators used by the source are total preorders, so
the sort is modelled by the stable `List.insertionSort` with the relation
"comparator result ≤ 0".
-/

namespace ClearPath

/-- `type AccountType = "Credit Card" | "Loan" | "Line of Credit" | "Other"`. -/
inductive AccountType where
  | creditCard
  | loan
  | lineOfCredit
  | other
deriving DecidableEq, Repr

/-- The `Account` record of the source (`type Account`), with JS numbers as `ℚ`. -/
structure Account where
  id : String
  name : String
  type : AccountType
  balance : ℚ
  limit : ℚ
  apr : ℚ
  minPay : ℚ
  dueDate : ℚ
  notes : Option String
  createdAt : ℚ
deriving DecidableEq, Repr

/-- `type AllocationRow`. -/
structure AllocationRow where
  accountId : String
  name : String
  min : ℚ
  extra : ℚ
  total : ℚ
deriving DecidableEq, Repr

/-- `type MonthPlan`. -/
structure MonthPlan where
  monthIndex : Nat
  allocations : List AllocationRow
  totalMin : ℚ
  totalExtra : ℚ
  totalPaid : ℚ
  totalInterest : ℚ
  remainingDebt : ℚ
deriving DecidableEq, Repr

/-- `type SimResult`. -/
structure SimResult where
  monthsToPayoff : Nat
  totalInterest : ℚ
  firstTargetIds : List String
  monthPlans : List MonthPlan
  stalled : Bool
deriving DecidableEq, Repr

/-- The two payoff strategies (`"avalanche" | "snowball"`). -/
inductive Style where
  | avalanche
  | snowball
deriving DecidableEq, Repr

/-- `const clamp = (n, a, b) => Math.max(a, Math.min(b, n))`. -/
def clamp (n a b : ℚ) : ℚ := max a (min b n)

/-- `function monthlyRate(aprPct) { return (Math.max(0, aprPct) / 100) / 12 }`. -/
def monthlyRate (aprPct : ℚ) : ℚ := max 0 aprPct / 100 / 12

/-- `function sum(nums) { return nums.reduce((a, b) => a + b, 0) }`. -/
def sum (nums : List ℚ) : ℚ := nums.foldl (· + ·) 0

/-- The avalanche comparator of `rankAccounts`:
`if (b.apr !== a.apr) return b.apr - a.apr; return b.balance - a.balance`. -/
def cmpAvalanche (a b : Account) : ℚ :=
  if b.apr ≠ a.apr then b.apr - a.apr else b.balance - a.balance

/-- The snowball comparator of `rankAccounts`:
`if (a.balance !== b.balance) return a.balance - b.balance; return b.apr - a.apr`. -/
def cmpSnowball (a b : Account) : ℚ :=
  if a.balance ≠ b.balance then a.balance - b.balance else b.apr - a.apr

/-- The comparator selected by the `style` argument of `rankAccounts`. -/
def rankCmp (style : Style) (a b : Account) : ℚ :=
  match style with
  | .avalanche => cmpAvalanche a b
  | .snowball => cmpSnowball a b

/-- The sorted list of alive accounts built inside `rankAccounts`:
`accts.filter(a => a.balance > 0.00001)` stably sorted by the comparator. -/
def sortedAlive (accts : List Account) (style : Style) : List Account :=
  List.insertionSort (fun a b => rankCmp style a b ≤ 0)
    (accts.filter (fun a => decide ((1 : ℚ)/100000 < a.balance)))

/-- `function rankAccounts(accts, style)`: ids of the alive accounts in
priority order. -/
def rankAccounts (accts : List Account) (style : Style) : List String :=
  (sortedAlive accts style).map (·.id)

/-- Assignment `record[k] = v` on a JS object used as a string-keyed record:
an existing key keeps its position and gets the new value, a fresh key is
appended. -/
def recordSet (recd : List (String × ℚ)) (k : String) (v : ℚ) :
    List (String × ℚ) :=
  if recd.any (fun p => decide (p.1 = k)) then
    recd.map (fun p => if p.1 = k then (k, v) else p)
  else recd ++ [(k, v)]

/-- The values of a record, summed (`sum(Object.values(r))`). -/
def sumValues (recd : List (String × ℚ)) : ℚ := sum (recd.map (·.2))

/-- In-place mutation of the first element found by a JS `Array.find`:
only the first match is updated. -/
def updateFirst (p : α → Bool) (f : α → α) : List α → List α
  | [] => []
  | x :: xs => if p x then f x :: xs else x :: updateFirst p f xs

/-- Step 1 of the month loop (interest accrual), threading the
`interestById` record: for each account with balance over the 0.01
threshold, add `balance * monthlyRate(apr)` to the balance, record the
interest under the account id, and accumulate the month's accrued total. -/
def accrueAux : List Account → List (String × ℚ) →
    List Account × List (String × ℚ) × ℚ
  | [], recd => ([], recd, 0)
  | a :: rest, recd =>
    if a.balance ≤ 1/100 then
      let r := accrueAux rest (recordSet recd a.id 0)
      (a :: r.1, r.2.1, r.2.2)
    else
      let i := a.balance * monthlyRate a.apr
      let r := accrueAux rest (recordSet recd a.id i)
      ({ a with balance := a.balance + i } :: r.1, r.2.1, i + r.2.2)

/-- Interest accrual over the whole working state, starting from the empty
`interestById` record. -/
def accrue (st : List Account) : List Account × List (String × ℚ) × ℚ :=
  accrueAux st []

/-- `a.name || "Account"` (JS falsy check on the empty string). -/
def nameOr (n : String) : String := if n = "" then "Account" else n

/-- Step 2 of the month loop (minimum payments): every account gets an
allocation row; an account with balance over 0.01 pays
`clamp(minPay, 0, balance)`. Returns the new state, the rows in state
order, and the total minimum paid. -/
def payMins : List Account → List Account × List AllocationRow × ℚ
  | [] => ([], [], 0)
  | a :: rest =>
    let r := payMins rest
    if a.balance ≤ 1/100 then
      (a :: r.1, ⟨a.id, nameOr a.name, 0, 0, 0⟩ :: r.2.1, r.2.2)
    else
      let mp := clamp a.minPay 0 a.balance
      ({ a with balance := a.balance - mp } :: r.1,
        ⟨a.id, nameOr a.name, mp, 0, mp⟩ :: r.2.1, mp + r.2.2)

/-- Step 3 of the month loop (extra allocation): walk the ranked ids,
stop when the extra pool is at most 0.00001, skip ids that resolve to no
account or to a balance at most 0.01, otherwise pay
`clamp(extraLeft, 0, balance)` to the first account with that id and add
the payment to the first allocation row with that id.  Returns the new
state, the updated rows, and the total extra paid. -/
def allocExtra : List String → List Account → List AllocationRow → ℚ →
    List Account × List AllocationRow × ℚ
  | [], st, rows, _ => (st, rows, 0)
  | idv :: rest, st, rows, extraLeft =>
    if extraLeft ≤ 1/100000 then (st, rows, 0)
    else
      match st.find? (fun x => decide (x.id = idv)) with
      | none => allocExtra rest st rows extraLeft
      | some a =>
        if a.balance ≤ 1/100 then allocExtra rest st rows extraLeft
        else
          let pay := clamp extraLeft 0 a.balance
          let st' := updateFirst (fun x => decide (x.id = idv))
            (fun x => { x with balance := x.balance - pay }) st
          let rows' := updateFirst (fun x => decide (x.accountId = idv))
            (fun x => { x with extra := x.extra + pay, total := x.total + pay })
            rows
          let r := allocExtra rest st' rows' (extraLeft - pay)
          (r.1, r.2.1, pay + r.2.2)

/-- The data produced by one iteration of the month loop, before the month
plan row is assembled. -/
structure StepResult where
  st : List Account
  allocs : List AllocationRow
  interestById : List (String × ℚ)
  accrued : ℚ
  totalMin : ℚ
  totalExtra : ℚ
deriving DecidableEq, Repr

/-- One whole month of the loop body of `simulatePayoff`: accrue interest,
pay minimums, re-rank, allocate the extra pool (`Math.max(0, extraMonthly)`). -/
def stepMonth (st : List Account) (style : Style) (extraMonthly : ℚ) :
    StepResult :=
  let ar := accrue st
  let pm := payMins ar.1
  let extraLeft := max 0 extraMonthly
  let order := rankAccounts pm.1 style
  let ax := allocExtra order pm.1 pm.2.1 extraLeft
  ⟨ax.1, ax.2.1, ar.2.1, ar.2.2, pm.2.2, ax.2.2⟩

/-- `sum(st.map(a => a.balance))` (`totalDebtNow`). -/
def totalDebt (st : List Account) : ℚ := sum (st.map (·.balance))

/-- The month plan row pushed by step 5 of the loop: rows with activity at
most 0.00001 are dropped and the remainder is stably sorted by descending
total paid (`(a, b) => b.total - a.total`). -/
def mkMonthPlan (m : Nat) (r : StepResult) : MonthPlan :=
  ⟨m,
    List.insertionSort (fun x y => y.total - x.total ≤ 0)
      (r.allocs.filter (fun x => decide ((1 : ℚ)/100000 < x.min + x.extra))),
    r.totalMin, r.totalExtra, r.totalMin + r.totalExtra,
    sumValues r.interestById, totalDebt r.st⟩

/-- The mutable locals of the driver loop of `simulatePayoff`. -/
structure LoopSt where
  st : List Account
  totalInterest : ℚ
  monthsToPayoff : Nat
  monthPlans : List MonthPlan
  stalled : Bool
deriving DecidableEq, Repr

/-- The `for (let m = 1; m <= monthsCap; m++)` loop of `simulatePayoff`,
with the remaining iteration count as structural fuel (`m + fuel =
monthsCap + 1` at every call from the driver).  Faithfully in source
order: break on `allPaid` at the top (recording `m - 1`), step the month,
run the month-1 stall check against the raw input, push the plan row while
below `wantMonths`, break on `allPaid` (recording `m`), and record
`monthsCap` when the last iteration completes. -/
def loopGo (accountsInput : List Account) (style : Style) (extra : ℚ)
    (monthsCap wantMonths : Nat) : Nat → Nat → LoopSt → LoopSt
  | _, 0, s => s
  | m, fuel + 1, s =>
    if totalDebt s.st ≤ 1/100 then { s with monthsToPayoff := m - 1 }
    else
      let r := stepMonth s.st style extra
      let stalled' :=
        if m = 1 then
          if (accountsInput.any (fun a => decide ((1 : ℚ)/100 < a.balance)))
              && !(decide ((1 : ℚ)/100000 < r.totalMin + r.totalExtra)) then
            true
          else s.stalled
        else s.stalled
      let plans' :=
        if s.monthPlans.length < wantMonths then
          s.monthPlans ++ [mkMonthPlan m r]
        else s.monthPlans
      let ti' := s.totalInterest + r.accrued
      if totalDebt r.st ≤ 1/100 then
        ⟨r.st, ti', m, plans', stalled'⟩
      else
        let mtp := if m = monthsCap then monthsCap else s.monthsToPayoff
        loopGo accountsInput style extra monthsCap wantMonths (m + 1) fuel
          ⟨r.st, ti', mtp, plans', stalled'⟩

/-- The per-account clone of `simulatePayoff`: clamp the monetary fields
to ≥ 0 and default a falsy due date to 1, clamped to [1, 31]. -/
def cloneAccount (a : Account) : Account :=
  { a with
    balance := max 0 a.balance
    limit := max 0 a.limit
    apr := max 0 a.apr
    minPay := max 0 a.minPay
    dueDate := clamp (if a.dueDate = 0 then 1 else a.dueDate) 1 31 }

/-- The keep filter of the working-state clone:
`a.balance > 0.00001 || a.minPay > 0`. -/
def initKeep (a : Account) : Bool :=
  decide ((1 : ℚ)/100000 < a.balance) || decide ((0 : ℚ) < a.minPay)

/-- The working-state clone of `simulatePayoff`: clamp the monetary fields
to ≥ 0, default a falsy due date to 1 and clamp it to [1, 31], and drop
accounts with `balance ≤ 0.00001` and `minPay ≤ 0`. -/
def initState (accountsInput : List Account) : List Account :=
  (accountsInput.map cloneAccount).filter initKeep

/-- `simulatePayoff`, returning the `SimResult` together with the final
working state (the source's `st` after the loop). -/
def simulatePayoffFull (accountsInput : List Account) (style : Style)
    (extraMonthly : ℚ) (monthsCap wantMonths : Nat) :
    SimResult × List Account :=
  let st := initState accountsInput
  let initialOrder := rankAccounts st style
  let s := loopGo accountsInput style extraMonthly monthsCap wantMonths 1
    monthsCap ⟨st, 0, 0, [], false⟩
  let stalled :=
    if totalDebt s.st ≤ 1/100 then s.stalled
    else if s.monthsToPayoff = monthsCap then true else s.stalled
  (⟨s.monthsToPayoff, s.totalInterest, initialOrder, s.monthPlans, stalled⟩,
    s.st)

/-- `simulatePayoff` with explicit `monthsCap` and `wantMonths` options. -/
def simulatePayoff (accountsInput : List Account) (style : Style)
    (extraMonthly : ℚ) (monthsCap wantMonths : Nat) : SimResult :=
  (simulatePayoffFull accountsInput style extraMonthly monthsCap wantMonths).1

/-- `simulatePayoff` with the default options (`monthsCap = 600`,
`wantMonths = 600`). -/
def simulatePayoffDefault (accountsInput : List Account) (style : Style)
    (extraMonthly : ℚ) : SimResult :=
  simulatePayoff accountsInput style extraMonthly 600 600

/-- A default account value, used only as the `getD` fallback. -/
def dAccount : Account := ⟨"", "", .other, 0, 0, 0, 0, 1, none, 0⟩

/-- A default allocation row, used only as the `getD` fallback. -/
def dRow : AllocationRow := ⟨"", "", 0, 0, 0⟩

/-- A default month plan, used only as the `getD` fallback. -/
def dPlan : MonthPlan := ⟨0, [], 0, 0, 0, 0, 0⟩

/-- A convenient concrete account literal for witnesses. -/
def mkAcct (idv : String) (balance apr minPay : ℚ) : Account :=
  ⟨idv, idv, .creditCard, balance, 0, apr, minPay, 1, none, 0⟩

instance : Inhabited Account := ⟨dAccount⟩

instance : Inhabited AllocationRow := ⟨dRow⟩

instance : Inhabited MonthPlan := ⟨dPlan⟩

/-- The priority order realised by the avalanche strategy: descending
annual rate, ties broken by descending balance. -/
def avalOrder (a b : Account) : Prop :=
  b.apr < a.apr ∨ (b.apr = a.apr ∧ b.balance ≤ a.balance)

/-- The priority order realised by the snowball strategy: ascending
balance, ties broken by descending annual rate. -/
def snowOrder (a b : Account) : Prop :=
  a.balance < b.balance ∨ (a.balance = b.balance ∧ b.apr ≤ a.apr)

/-! ### Basic bridges -/

theorem sum_eq_listSum (l : List ℚ) : sum l = l.sum := by
  suffices h : ∀ (a : ℚ), l.foldl (· + ·) a = a + l.sum by
    simpa [sum] using h 0
  induction l with
  | nil => simp
  | cons x xs ih => intro a; simp [List.foldl_cons, ih, add_assoc]

theorem sum_nonneg (l : List ℚ) (h : ∀ x ∈ l, 0 ≤ x) : 0 ≤ sum l := by
  rw [sum_eq_listSum]; exact List.sum_nonneg h

/-! ### Ranking (C2) -/

theorem cmpAvalanche_nonpos (a b : Account) :
    cmpAvalanche a b ≤ 0 ↔ avalOrder a b := by
  unfold cmpAvalanche avalOrder
  by_cases h : b.apr = a.apr
  · simp [h]
  · have h' : ¬ a.apr = b.apr := fun hh => h hh.symm
    simp only [if_pos h, sub_nonpos]
    constructor
    · intro hle; exact Or.inl (lt_of_le_of_ne hle h)
    · rintro (hlt | ⟨he, _⟩)
      · exact le_of_lt hlt
      · exact absurd he h

theorem cmpSnowball_nonpos (a b : Account) :
    cmpSnowball a b ≤ 0 ↔ snowOrder a b := by
  unfold cmpSnowball snowOrder
  by_cases h : a.balance = b.balance
  · simp [h]
  · simp only [if_pos h, sub_nonpos]
    constructor
    · intro hle; exact Or.inl (lt_of_le_of_ne hle h)
    · rintro (hlt | ⟨he, _⟩)
      · exact le_of_lt hlt
      · exact absurd he h

theorem avalOrder_total (a b : Account) : avalOrder a b ∨ avalOrder b a := by
  unfold avalOrder
  rcases lt_trichotomy a.apr b.apr with h | h | h
  · exact Or.inr (Or.inl h)
  · rcases le_total b.balance a.balance with hb | hb
    · exact Or.inl (Or.inr ⟨h.symm, hb⟩)
    · exact Or.inr (Or.inr ⟨h, hb⟩)
  · exact Or.inl (Or.inl h)

theorem avalOrder_trans (a b c : Account) (h1 : avalOrder a b)
    (h2 : avalOrder b c) : avalOrder a c := by
  unfold avalOrder at *
  rcases h1 with h1 | ⟨h1e, h1b⟩ <;> rcases h2 with h2 | ⟨h2e, h2b⟩
  · exact Or.inl (h2.trans h1)
  · exact Or.inl (h2e ▸ h1)
  · exact Or.inl (h1e ▸ h2)
  · exact Or.inr ⟨h2e.trans h1e, h2b.trans h1b⟩

theorem snowOrder_total (a b : Account) : snowOrder a b ∨ snowOrder b a := by
  unfold snowOrder
  rcases lt_trichotomy a.balance b.balance with h | h | h
  · exact Or.inl (Or.inl h)
  · rcases le_total b.apr a.apr with hb | hb
    · exact Or.inl (Or.inr ⟨h, hb⟩)
    · exact Or.inr (Or.inr ⟨h.symm, hb⟩)
  · exact Or.inr (Or.inl h)

theorem snowOrder_trans (a b c : Account) (h1 : snowOrder a b)
    (h2 : snowOrder b c) : snowOrder a c := by
  unfold snowOrder at *
  rcases h1 with h1 | ⟨h1e, h1b⟩ <;> rcases h2 with h2 | ⟨h2e, h2b⟩
  · exact Or.inl (h1.trans h2)
  · exact Or.inl (h2e ▸ h1)
  · exact Or.inl (h1e ▸ h2)
  · exact Or.inr ⟨h1e.trans h2e, h2b.trans h1b⟩

theorem rankRel_iff (style : Style) (a b : Account) :
    rankCmp style a b ≤ 0 ↔
      (match style with
        | .avalanche => avalOrder a b
        | .snowball => snowOrder a b) := by
  cases style
  · exact cmpAvalanche_nonpos a b
  · exact cmpSnowball_nonpos a b

theorem sortedAlive_perm (accts : List Account) (style : Style) :
    (sortedAlive accts style).Perm
      (accts.filter (fun a => decide ((1 : ℚ)/100000 < a.balance))) :=
  List.perm_insertionSort _ _

theorem sortedAlive_sorted_avalanche (accts : List Account) :
    List.Sorted avalOrder (sortedAlive accts .avalanche) := by
  haveI : IsTotal Account (fun a b => rankCmp .avalanche a b ≤ 0) := by
    constructor; intro a b
    simpa [rankRel_iff] using avalOrder_total a b
  haveI : IsTrans Account (fun a b => rankCmp .avalanche a b ≤ 0) := by
    constructor; intro a b c h1 h2
    rw [rankRel_iff] at *
    exact avalOrder_trans a b c h1 h2
  have := List.sorted_insertionSort
    (fun a b : Account => rankCmp .avalanche a b ≤ 0)
    (accts.filter (fun a => decide ((1 : ℚ)/100000 < a.balance)))
  refine List.Pairwise.imp ?_ this
  intro a b h
  simpa [rankRel_iff] using h

theorem sortedAlive_sorted_snowball (accts : List Account) :
    List.Sorted snowOrder (sortedAlive accts .snowball) := by
  haveI : IsTotal Account (fun a b => rankCmp .snowball a b ≤ 0) := by
    constructor; intro a b
    simpa [rankRel_iff] using snowOrder_total a b
  haveI : IsTrans Account (fun a b => rankCmp .snowball a b ≤ 0) := by
    constructor; intro a b c h1 h2
    rw [rankRel_iff] at *
    exact snowOrder_trans a b c h1 h2
  have := List.sorted_insertionSort
    (fun a b : Account => rankCmp .snowball a b ≤ 0)
    (accts.filter (fun a => decide ((1 : ℚ)/100000 < a.balance)))
  refine List.Pairwise.imp ?_ this
  intro a b h
  simpa [rankRel_iff] using h

theorem rank_not_mem_of_paid (accts : List Account) (style : Style)
    (hN : (accts.map (·.id)).Nodup) (a : Account) (ha : a ∈ accts)
    (hpaid : a.balance ≤ 1/100000) : a.id ∉ rankAccounts accts style := by
  intro hmem
  rcases List.mem_map.mp hmem with ⟨b, hb, hid⟩
  have hbf : b ∈ accts.filter (fun a => decide ((1 : ℚ)/100000 < a.balance)) :=
    (sortedAlive_perm accts style).mem_iff.mp hb
  have hbm := List.mem_filter.mp hbf
  have hba : (1 : ℚ)/100000 < b.balance := by
    have := hbm.2; simpa using this
  have : b = a := List.inj_on_of_nodup_map hN hbm.1 ha hid
  rw [this] at hba
  exact absurd hpaid (not_le.mpr hba)

/-- **C2.** `rankAccounts` returns exactly the ids of the accounts with
balance above 0.00001: the returned ids are the ids of the alive accounts
(as a permutation of the filtered input), they are the ids of the sorted
alive list, the avalanche order is descending annual rate with ties broken
by descending balance, the snowball order is ascending balance with ties
broken by descending annual rate, and a fully paid account never appears
in the returned order. -/
theorem rank_orders_alive_accounts (accts : List Account)
    (hN : (accts.map (·.id)).Nodup) :
    (∀ style, (rankAccounts accts style).Perm
      ((accts.filter (fun a => decide ((1 : ℚ)/100000 < a.balance))).map (·.id)))
    ∧ (∀ style, rankAccounts accts style = (sortedAlive accts style).map (·.id))
    ∧ List.Sorted avalOrder (sortedAlive accts .avalanche)
    ∧ List.Sorted snowOrder (sortedAlive accts .snowball)
    ∧ (∀ style, ∀ a ∈ accts, a.balance ≤ 1/100000 →
        a.id ∉ rankAccounts accts style) := by
  refine ⟨fun style => ?_, fun style => rfl,
    sortedAlive_sorted_avalanche accts, sortedAlive_sorted_snowball accts,
    fun style a ha hp => rank_not_mem_of_paid accts style hN a ha hp⟩
  exact (sortedAlive_perm accts style).map (·.id)

/-- The concrete account list used by the C2 witness. -/
def w2accts : List Account :=
  [mkAcct "a" 100 10 5, mkAcct "b" 200 20 5, mkAcct "c" 0 50 5]

/-- Witness for C2 at a concrete account list. -/
theorem rank_orders_alive_accounts_witness :
    (w2accts.map (·.id)).Nodup
    ∧ ((∀ style, (rankAccounts w2accts style).Perm
        ((w2accts.filter
          (fun a => decide ((1 : ℚ)/100000 < a.balance))).map (·.id)))
      ∧ (∀ style, rankAccounts w2accts style
          = (sortedAlive w2accts style).map (·.id))
      ∧ List.Sorted avalOrder (sortedAlive w2accts .avalanche)
      ∧ List.Sorted snowOrder (sortedAlive w2accts .snowball)
      ∧ (∀ style, ∀ a ∈ w2accts, a.balance ≤ 1/100000 →
          a.id ∉ rankAccounts w2accts style)) :=
  ⟨by with_unfolding_all decide,
    rank_orders_alive_accounts w2accts (by with_unfolding_all decide)⟩

/-! ### The accrual step as a pointwise map -/

/-- The effect of the accrual step on a single account. -/
def accrue1 (a : Account) : Account :=
  if a.balance ≤ 1/100 then a
  else { a with balance := a.balance + a.balance * monthlyRate a.apr }

/-- The interest recorded for a single account by the accrual step. -/
def interest1 (a : Account) : ℚ :=
  if a.balance ≤ 1/100 then 0 else a.balance * monthlyRate a.apr

/-- The `interestById` record built by the accrual loop. -/
def accrueRecord (recd : List (String × ℚ)) (st : List Account) :
    List (String × ℚ) :=
  st.foldl (fun r a => recordSet r a.id (interest1 a)) recd

theorem accrueAux_eq (st : List Account) (recd : List (String × ℚ)) :
    accrueAux st recd
      = (st.map accrue1, accrueRecord recd st, (st.map interest1).sum) := by
  induction st generalizing recd with
  | nil => simp [accrueAux, accrueRecord]
  | cons a rest ih =>
    by_cases h : a.balance ≤ 1/100
    · simp only [accrueAux, if_pos h, ih, accrue1, interest1, List.map_cons,
        List.sum_cons, accrueRecord, List.foldl_cons, zero_add]
    · simp only [accrueAux, if_neg h, ih, accrue1, interest1, List.map_cons,
        List.sum_cons, accrueRecord, List.foldl_cons]

theorem accrue_eq (st : List Account) :
    accrue st = (st.map accrue1, accrueRecord [] st, (st.map interest1).sum) :=
  accrueAux_eq st []

/-! ### The minimum-payment step as a pointwise map -/

/-- The effect of the minimum-payment step on a single account. -/
def payMin1 (a : Account) : Account :=
  if a.balance ≤ 1/100 then a
  else { a with balance := a.balance - clamp a.minPay 0 a.balance }

/-- The minimum actually paid by a single account. -/
def minPaid1 (a : Account) : ℚ :=
  if a.balance ≤ 1/100 then 0 else clamp a.minPay 0 a.balance

/-- The allocation row pushed for a single account by the
minimum-payment step. -/
def minRow1 (a : Account) : AllocationRow :=
  ⟨a.id, nameOr a.name, minPaid1 a, 0, minPaid1 a⟩

theorem payMins_eq (st : List Account) :
    payMins st = (st.map payMin1, st.map minRow1, (st.map minPaid1).sum) := by
  induction st with
  | nil => simp [payMins]
  | cons a rest ih =>
    by_cases h : a.balance ≤ 1/100
    · simp only [payMins, ih, if_pos h, payMin1, minRow1, minPaid1,
        List.map_cons, List.sum_cons, zero_add]
    · simp only [payMins, ih, if_neg h, payMin1, minRow1, minPaid1,
        List.map_cons, List.sum_cons]

/-! ### Record lemmas -/

theorem recordSet_of_fresh (recd : List (String × ℚ)) (k : String) (v : ℚ)
    (h : ∀ p ∈ recd, p.1 ≠ k) : recordSet recd k v = recd ++ [(k, v)] := by
  unfold recordSet
  rw [if_neg]
  simp only [List.any_eq_true, decide_eq_true_eq, not_exists]
  intro p
  rcases Decidable.em (p ∈ recd) with hp | hp
  · exact fun hmem => absurd hmem.2 (h p hp)
  · exact fun hmem => absurd hmem.1 hp

theorem accrueRecord_fresh (st : List Account) :
    ∀ recd : List (String × ℚ), (st.map (·.id)).Nodup →
      (∀ a ∈ st, ∀ p ∈ recd, p.1 ≠ a.id) →
      accrueRecord recd st = recd ++ st.map (fun a => (a.id, interest1 a)) := by
  induction st with
  | nil => intro recd _ _; simp [accrueRecord]
  | cons a rest ih =>
    intro recd hN h
    have hfresh : ∀ p ∈ recd, p.1 ≠ a.id :=
      fun p hp => h a (List.mem_cons_self a rest) p hp
    rw [List.map_cons] at hN
    have hcons := List.nodup_cons.mp hN
    have step : accrueRecord recd (a :: rest)
        = accrueRecord (recd ++ [(a.id, interest1 a)]) rest := by
      unfold accrueRecord
      rw [List.foldl_cons, recordSet_of_fresh recd a.id (interest1 a) hfresh]
    rw [step, ih (recd ++ [(a.id, interest1 a)]) hcons.2 ?_]
    · simp
    · intro b hb p hp
      rcases List.mem_append.mp hp with hp1 | hp1
      · exact h b (List.mem_cons_of_mem a hb) p hp1
      · have hpa : p = (a.id, interest1 a) := by simpa using hp1
        rw [hpa]
        intro hcontra
        exact hcons.1 (by
          have : a.id = b.id := hcontra
          rw [this]
          exact List.mem_map.mpr ⟨b, hb, rfl⟩)

theorem accrue_record_sum (st : List Account) (hN : (st.map (·.id)).Nodup) :
    sumValues (accrue st).2.1 = (st.map interest1).sum := by
  rw [accrue_eq]
  have : accrueRecord [] st = [] ++ st.map (fun a => (a.id, interest1 a)) :=
    accrueRecord_fresh st [] hN (by simp)
  simp only [this, List.nil_append, sumValues, sum_eq_listSum, List.map_map]
  rfl

/-! ### Debt plumbing -/

theorem totalDebt_cons (a : Account) (l : List Account) :
    totalDebt (a :: l) = a.balance + totalDebt l := by
  simp [totalDebt, sum_eq_listSum]

theorem totalDebt_append (l l' : List Account) :
    totalDebt (l ++ l') = totalDebt l + totalDebt l' := by
  simp [totalDebt, sum_eq_listSum]

theorem totalDebt_nil : totalDebt [] = 0 := rfl

theorem sum_map_add (l : List Account) (f g : Account → ℚ) :
    (l.map (fun a => f a + g a)).sum = (l.map f).sum + (l.map g).sum := by
  induction l with
  | nil => simp
  | cons a rest ih => simp [ih]; ring

theorem sum_map_sub (l : List Account) (f g : Account → ℚ) :
    (l.map (fun a => f a - g a)).sum = (l.map f).sum - (l.map g).sum := by
  induction l with
  | nil => simp
  | cons a rest ih => simp [ih]; ring

theorem balance_accrue1 (a : Account) :
    (accrue1 a).balance = a.balance + interest1 a := by
  unfold accrue1 interest1
  by_cases h : a.balance ≤ 1/100
  · rw [if_pos h, if_pos h, add_zero]
  · rw [if_neg h, if_neg h]

theorem balance_payMin1 (a : Account) :
    (payMin1 a).balance = a.balance - minPaid1 a := by
  unfold payMin1 minPaid1
  by_cases h : a.balance ≤ 1/100
  · rw [if_pos h, if_pos h, sub_zero]
  · rw [if_neg h, if_neg h]

theorem totalDebt_accrue (st : List Account) :
    totalDebt (st.map accrue1) = totalDebt st + (st.map interest1).sum := by
  unfold totalDebt
  rw [sum_eq_listSum, sum_eq_listSum, List.map_map]
  have : st.map (fun a => (accrue1 a).balance)
      = st.map (fun a => a.balance + interest1 a) :=
    List.map_congr_left fun a _ => balance_accrue1 a
  rw [show ((·.balance) ∘ accrue1) = fun a : Account => (accrue1 a).balance from rfl,
    this, sum_map_add]

theorem totalDebt_payMins (st : List Account) :
    totalDebt (st.map payMin1) = totalDebt st - (st.map minPaid1).sum := by
  unfold totalDebt
  rw [sum_eq_listSum, sum_eq_listSum, List.map_map]
  have : st.map (fun a => (payMin1 a).balance)
      = st.map (fun a => a.balance - minPaid1 a) :=
    List.map_congr_left fun a _ => balance_payMin1 a
  rw [show ((·.balance) ∘ payMin1) = fun a : Account => (payMin1 a).balance from rfl,
    this, sum_map_sub]

/-! ### updateFirst lemmas -/

theorem updateFirst_length (p : α → Bool) (f : α → α) (l : List α) :
    (updateFirst p f l).length = l.length := by
  induction l with
  | nil => rfl
  | cons x xs ih =>
    unfold updateFirst
    by_cases h : p x <;> simp [h, ih]

theorem updateFirst_map_key (p : α → Bool) (f : α → α) (key : α → β)
    (hf : ∀ x, key (f x) = key x) (l : List α) :
    (updateFirst p f l).map key = l.map key := by
  induction l with
  | nil => rfl
  | cons x xs ih =>
    unfold updateFirst
    by_cases h : p x <;> simp [h, ih, hf]

theorem updateFirst_split (p : α → Bool) (f : α → α) :
    ∀ (l : List α) (a : α), l.find? p = some a →
      ∃ l₁ l₂, l = l₁ ++ a :: l₂ ∧ (∀ x ∈ l₁, p x = false)
        ∧ updateFirst p f l = l₁ ++ f a :: l₂ := by
  intro l
  induction l with
  | nil => intro a h; simp [List.find?] at h
  | cons x xs ih =>
    intro a h
    by_cases hx : p x
    · have : a = x := by
        have := List.find?_cons_of_pos (p := p) xs hx
        rw [this] at h
        exact (Option.some_inj.mp h).symm
      subst this
      exact ⟨[], xs, by simp, by simp, by simp [updateFirst, hx]⟩
    · have hfind : xs.find? p = some a := by
        have := List.find?_cons_of_neg (p := p) xs (by simpa using hx)
        rw [this] at h
        exact h
      rcases ih a hfind with ⟨l₁, l₂, hsplit, hfalse, hupd⟩
      refine ⟨x :: l₁, l₂, by simp [hsplit], ?_, ?_⟩
      · intro y hy
        rcases List.mem_cons.mp hy with hy | hy
        · rw [hy]; simpa using hx
        · exact hfalse y hy
      · simp [updateFirst, hx, hupd]

/-! ### getD helpers -/

theorem getD_mem (l : List α) (i : Nat) (d : α) (h : i < l.length) :
    l.getD i d ∈ l := by
  induction l generalizing i with
  | nil => simp at h
  | cons x xs ih =>
    cases i with
    | zero => simp
    | succ j =>
      rw [List.getD_cons_succ]
      exact List.mem_cons_of_mem x (ih j (by simpa using h))

theorem getD_map_eq {f : α → γ} {g : β → γ} :
    ∀ {l : List α} {l' : List β}, l.map f = l'.map g →
      ∀ (d : α) (d' : β), f d = g d' →
        ∀ i, f (l.getD i d) = g (l'.getD i d') := by
  intro l
  induction l with
  | nil =>
    intro l' h d d' hd i
    have : l' = [] := by
      cases l' with
      | nil => rfl
      | cons y ys => simp at h
    subst this
    simpa using hd
  | cons x xs ih =>
    intro l' h d d' hd i
    cases l' with
    | nil => simp at h
    | cons y ys =>
      simp only [List.map_cons, List.cons.injEq] at h
      cases i with
      | zero => simpa using h.1
      | succ j =>
        rw [List.getD_cons_succ, List.getD_cons_succ]
        exact ih h.2 d d' hd j

theorem updateFirst_getD (key : α → String) (f : α → α) (idv : String)
    (d : α) :
    ∀ l : List α, (l.map key).Nodup → ∀ i,
      (updateFirst (fun x => decide (key x = idv)) f l).getD i d
        = if i < l.length ∧ key (l.getD i d) = idv then f (l.getD i d)
          else l.getD i d := by
  intro l
  induction l with
  | nil =>
    intro _ i
    rw [if_neg]
    · rfl
    · rintro ⟨hi, _⟩
      simp at hi
  | cons x xs ih =>
    intro hN i
    rw [List.map_cons] at hN
    have hcons := List.nodup_cons.mp hN
    by_cases hx : key x = idv
    · have hpx : (fun y => decide (key y = idv)) x = true := by simpa using hx
      cases i with
      | zero =>
        simp only [updateFirst, hpx, if_true, List.getD_cons_zero]
        rw [if_pos ⟨by simp, hx⟩]
      | succ j =>
        simp only [updateFirst, hpx, if_true, List.getD_cons_succ]
        rw [if_neg]
        rintro ⟨hj, hkey⟩
        have hj' : j < xs.length := by simpa using hj
        have hmem : key (xs.getD j d) ∈ xs.map key :=
          List.mem_map.mpr ⟨_, getD_mem xs j d hj', rfl⟩
        rw [hkey, ← hx] at hmem
        exact hcons.1 hmem
    · have hpx : (fun y => decide (key y = idv)) x = false := by simpa using hx
      cases i with
      | zero =>
        simp only [updateFirst, hpx, Bool.false_eq_true, if_false,
          List.getD_cons_zero]
        rw [if_neg]
        rintro ⟨_, hkey⟩
        exact hx hkey
      | succ j =>
        simp only [updateFirst, hpx, Bool.false_eq_true, if_false,
          List.getD_cons_succ]
        rw [ih hcons.2 j]
        by_cases hcond : j < xs.length ∧ key (xs.getD j d) = idv
        · rw [if_pos hcond, if_pos ⟨by simpa using hcond.1, hcond.2⟩]
        · rw [if_neg hcond, if_neg]
          rintro ⟨hj, hkey⟩
          exact hcond ⟨by simpa using hj, hkey⟩

/-! ### allocExtra lemmas -/

theorem clamp_nonneg (e b : ℚ) : 0 ≤ clamp e 0 b := le_max_left 0 _

theorem clamp_le_of_nonneg (e b : ℚ) (hb : 0 ≤ b) : clamp e 0 b ≤ b :=
  max_le hb (min_le_left b e)

theorem allocExtra_debt :
    ∀ (order : List String) (st : List Account) (rows : List AllocationRow)
      (e : ℚ),
      totalDebt (allocExtra order st rows e).1
        = totalDebt st - (allocExtra order st rows e).2.2 := by
  intro order
  induction order with
  | nil => intro st rows e; simp [allocExtra]
  | cons idv rest ih =>
    intro st rows e
    by_cases he : e ≤ 1/100000
    · rw [allocExtra, if_pos he]
      simp
    · rw [allocExtra, if_neg he]
      cases hfind : st.find? (fun x => decide (x.id = idv)) with
      | none => exact ih st rows e
      | some a =>
        dsimp only
        by_cases hbal : a.balance ≤ 1/100
        · rw [if_pos hbal]; exact ih st rows e
        · rw [if_neg hbal]
          rcases updateFirst_split (fun x => decide (x.id = idv))
            (fun x => { x with balance := x.balance - clamp e 0 a.balance })
            st a hfind with ⟨l₁, l₂, hsplit, _, hupd⟩
          have hdebt : totalDebt (updateFirst (fun x => decide (x.id = idv))
              (fun x => { x with balance := x.balance - clamp e 0 a.balance })
              st) = totalDebt st - clamp e 0 a.balance := by
            rw [hupd, hsplit, totalDebt_append, totalDebt_append,
              totalDebt_cons, totalDebt_cons]
            simp only []
            ring
          simp only []
          rw [ih, hdebt]
          ring

theorem allocExtra_extra_nonneg :
    ∀ (order : List String) (st : List Account) (rows : List AllocationRow)
      (e : ℚ), 0 ≤ (allocExtra order st rows e).2.2 := by
  intro order
  induction order with
  | nil => intro st rows e; simp [allocExtra]
  | cons idv rest ih =>
    intro st rows e
    by_cases he : e ≤ 1/100000
    · rw [allocExtra, if_pos he]
    · rw [allocExtra, if_neg he]
      cases hfind : st.find? (fun x => decide (x.id = idv)) with
      | none => exact ih st rows e
      | some a =>
        dsimp only
        by_cases hbal : a.balance ≤ 1/100
        · rw [if_pos hbal]; exact ih st rows e
        · rw [if_neg hbal]
          dsimp only
          exact add_nonneg (clamp_nonneg e a.balance) (ih _ _ _)

theorem allocExtra_balances_nonneg :
    ∀ (order : List String) (st : List Account) (rows : List AllocationRow)
      (e : ℚ), (∀ a ∈ st, 0 ≤ a.balance) →
      ∀ x ∈ (allocExtra order st rows e).1, 0 ≤ x.balance := by
  intro order
  induction order with
  | nil => intro st rows e h x hx; exact h x (by simpa [allocExtra] using hx)
  | cons idv rest ih =>
    intro st rows e h x hx
    by_cases he : e ≤ 1/100000
    · rw [allocExtra, if_pos he] at hx
      exact h x hx
    · rw [allocExtra, if_neg he] at hx
      cases hfind : st.find? (fun y => decide (y.id = idv)) with
      | none =>
        rw [hfind] at hx
        exact ih st rows e h x hx
      | some a =>
        rw [hfind] at hx
        dsimp only at hx
        by_cases hbal : a.balance ≤ 1/100
        · rw [if_pos hbal] at hx
          exact ih st rows e h x hx
        · rw [if_neg hbal] at hx
          simp only [] at hx
          refine ih _ _ _ ?_ x hx
          intro y hy
          rcases updateFirst_split (fun z => decide (z.id = idv))
            (fun z => { z with balance := z.balance - clamp e 0 a.balance })
            st a hfind with ⟨l₁, l₂, hsplit, _, hupd⟩
          rw [hupd] at hy
          have hmem_st : ∀ z, z ∈ l₁ ∨ z ∈ l₂ → z ∈ st := by
            intro z hz
            rw [hsplit]
            rcases hz with hz | hz
            · exact List.mem_append.mpr (Or.inl hz)
            · exact List.mem_append.mpr (Or.inr (List.mem_cons_of_mem a hz))
          rcases List.mem_append.mp hy with hy | hy
          · exact h y (hmem_st y (Or.inl hy))
          · rcases List.mem_cons.mp hy with hy | hy
            · rw [hy]
              have ha_nonneg : 0 ≤ a.balance :=
                h a (List.mem_of_find?_eq_some hfind)
              have := clamp_le_of_nonneg e a.balance ha_nonneg
              simp only []
              linarith
            · exact h y (hmem_st y (Or.inr hy))

theorem allocExtra_ids :
    ∀ (order : List String) (st : List Account) (rows : List AllocationRow)
      (e : ℚ),
      (allocExtra order st rows e).1.map (·.id) = st.map (·.id)
      ∧ (allocExtra order st rows e).2.1.map (·.accountId)
          = rows.map (·.accountId) := by
  intro order
  induction order with
  | nil => intro st rows e; exact ⟨rfl, rfl⟩
  | cons idv rest ih =>
    intro st rows e
    by_cases he : e ≤ 1/100000
    · rw [allocExtra, if_pos he]
      exact ⟨rfl, rfl⟩
    · rw [allocExtra, if_neg he]
      cases hfind : st.find? (fun x => decide (x.id = idv)) with
      | none => exact ih st rows e
      | some a =>
        dsimp only
        by_cases hbal : a.balance ≤ 1/100
        · rw [if_pos hbal]; exact ih st rows e
        · rw [if_neg hbal]
          dsimp only
          refine ⟨?_, ?_⟩
          · rw [(ih _ _ _).1]
            exact updateFirst_map_key (fun x => decide (x.id = idv)) (fun x => { x with balance := x.balance - clamp e 0 a.balance }) (·.id) (fun x => rfl) st
          · rw [(ih _ _ _).2]
            exact updateFirst_map_key (fun x => decide (x.accountId = idv)) (fun x => { x with extra := x.extra + clamp e 0 a.balance, total := x.total + clamp e 0 a.balance }) (·.accountId) (fun x => rfl) rows

theorem allocExtra_index :
    ∀ (order : List String) (st : List Account) (rows : List AllocationRow)
      (e : ℚ), (st.map (·.id)).Nodup →
      rows.map (·.accountId) = st.map (·.id) → ∀ i,
      (((allocExtra order st rows e).1.getD i dAccount).balance
          = (st.getD i dAccount).balance
            - (((allocExtra order st rows e).2.1.getD i dRow).extra
              - (rows.getD i dRow).extra))
      ∧ (rows.getD i dRow).extra
          ≤ ((allocExtra order st rows e).2.1.getD i dRow).extra
      ∧ ((allocExtra order st rows e).2.1.getD i dRow).min
          = (rows.getD i dRow).min
      ∧ ((st.getD i dAccount).balance ≤ 1/100 →
          (allocExtra order st rows e).1.getD i dAccount = st.getD i dAccount
          ∧ (allocExtra order st rows e).2.1.getD i dRow
              = rows.getD i dRow) := by
  intro order
  induction order with
  | nil =>
    intro st rows e _ _ i
    dsimp only [allocExtra]
    exact ⟨by ring, le_refl _, rfl, fun _ => ⟨rfl, rfl⟩⟩
  | cons idv rest ih =>
    intro st rows e hN halign i
    by_cases he : e ≤ 1/100000
    · rw [allocExtra, if_pos he]
      exact ⟨by ring, le_refl _, rfl, fun _ => ⟨rfl, rfl⟩⟩
    · rw [allocExtra, if_neg he]
      cases hfind : st.find? (fun x => decide (x.id = idv)) with
      | none => exact ih st rows e hN halign i
      | some a =>
        dsimp only
        by_cases hbal : a.balance ≤ 1/100
        · rw [if_pos hbal]; exact ih st rows e hN halign i
        · rw [if_neg hbal]
          dsimp only
          have hidmap : (updateFirst (fun x => decide (x.id = idv)) (fun x => { x with balance := x.balance - clamp e 0 a.balance }) st).map (·.id) = st.map (·.id) :=
            updateFirst_map_key (fun x => decide (x.id = idv)) (fun x => { x with balance := x.balance - clamp e 0 a.balance }) (·.id) (fun x => rfl) st
          have hrowmap : (updateFirst (fun x => decide (x.accountId = idv)) (fun x => { x with extra := x.extra + clamp e 0 a.balance, total := x.total + clamp e 0 a.balance }) rows).map (·.accountId) = rows.map (·.accountId) :=
            updateFirst_map_key (fun x => decide (x.accountId = idv)) (fun x => { x with extra := x.extra + clamp e 0 a.balance, total := x.total + clamp e 0 a.balance }) (·.accountId) (fun x => rfl) rows
          have hN' : ((updateFirst (fun x => decide (x.id = idv)) (fun x => { x with balance := x.balance - clamp e 0 a.balance }) st).map (·.id)).Nodup := by rw [hidmap]; exact hN
          have halign' : (updateFirst (fun x => decide (x.accountId = idv)) (fun x => { x with extra := x.extra + clamp e 0 a.balance, total := x.total + clamp e 0 a.balance }) rows).map (·.accountId) = (updateFirst (fun x => decide (x.id = idv)) (fun x => { x with balance := x.balance - clamp e 0 a.balance }) st).map (·.id) := by rw [hrowmap, hidmap, halign]
          have hNrows : (rows.map (·.accountId)).Nodup := by
            rw [halign]; exact hN
          have hlen : rows.length = st.length := by
            have := congrArg List.length halign
            simpa using this
          have hkey : (rows.getD i dRow).accountId = (st.getD i dAccount).id :=
            getD_map_eq halign dRow dAccount rfl i
          have hstD := updateFirst_getD (·.id) (fun x => { x with balance := x.balance - clamp e 0 a.balance }) idv dAccount st hN i
          have hrowD := updateFirst_getD (·.accountId) (fun x => { x with extra := x.extra + clamp e 0 a.balance, total := x.total + clamp e 0 a.balance }) idv dRow rows hNrows i
          have IH := ih _ _ (e - clamp e 0 a.balance) hN' halign' i
          have hpay : (0 : ℚ) ≤ clamp e 0 a.balance := clamp_nonneg e a.balance
          by_cases hc : i < st.length ∧ (st.getD i dAccount).id = idv
          · have hcrow : i < rows.length ∧ (rows.getD i dRow).accountId = idv := by
              rw [hlen, hkey]; exact hc
            rw [if_pos hc] at hstD
            rw [if_pos hcrow] at hrowD
            have ha_eq : st.getD i dAccount = a := by
              have hmem : st.getD i dAccount ∈ st := getD_mem st i dAccount hc.1
              have hfa : a ∈ st := List.mem_of_find?_eq_some hfind
              have hida : a.id = idv := by
                have := List.find?_some hfind
                simpa using this
              exact List.inj_on_of_nodup_map hN hmem hfa (hc.2.trans hida.symm)
            refine ⟨?_, ?_, ?_, ?_⟩
            · rw [IH.1, hstD, hrowD]
              dsimp only
              ring
            · have h1 := IH.2.1
              rw [hrowD] at h1
              dsimp only at h1
              linarith
            · rw [IH.2.2.1, hrowD]
            · intro hple
              rw [ha_eq] at hple
              exact absurd hple hbal
          · have hcrow : ¬ (i < rows.length ∧ (rows.getD i dRow).accountId = idv) := by
              rw [hlen, hkey]; exact hc
            rw [if_neg hc] at hstD
            rw [if_neg hcrow] at hrowD
            refine ⟨?_, ?_, ?_, ?_⟩
            · rw [IH.1, hstD, hrowD]
            · have h1 := IH.2.1
              rw [hrowD] at h1
              exact h1
            · rw [IH.2.2.1, hrowD]
            · intro hple
              have := IH.2.2.2 (by rw [hstD]; exact hple)
              rw [hstD] at this
              rw [hrowD] at this
              exact this

/-! ### Field preservation helpers -/

theorem accrue1_id (a : Account) : (accrue1 a).id = a.id := by
  unfold accrue1; split <;> rfl

theorem accrue1_minPay (a : Account) : (accrue1 a).minPay = a.minPay := by
  unfold accrue1; split <;> rfl

theorem payMin1_id (a : Account) : (payMin1 a).id = a.id := by
  unfold payMin1; split <;> rfl

theorem monthlyRate_nonneg (x : ℚ) : 0 ≤ monthlyRate x := by
  unfold monthlyRate
  positivity

theorem interest1_nonneg (a : Account) : 0 ≤ interest1 a := by
  unfold interest1
  split
  · exact le_refl 0
  · rename_i h
    have hb : (0 : ℚ) ≤ a.balance := by
      have : (0 : ℚ) < 1/100 := by norm_num
      linarith [lt_of_not_le h]
    exact mul_nonneg hb (monthlyRate_nonneg a.apr)

theorem minPaid1_nonneg (a : Account) : 0 ≤ minPaid1 a := by
  unfold minPaid1
  split
  · exact le_refl 0
  · exact clamp_nonneg a.minPay a.balance

theorem accrue1_balance_nonneg (a : Account) (h : 0 ≤ a.balance) :
    0 ≤ (accrue1 a).balance := by
  rw [balance_accrue1]
  exact add_nonneg h (interest1_nonneg a)

theorem payMin1_balance_nonneg (a : Account) (h : 0 ≤ a.balance) :
    0 ≤ (payMin1 a).balance := by
  unfold payMin1
  split
  · exact h
  · simp only []
    have := clamp_le_of_nonneg a.minPay a.balance h
    linarith

/-! ### stepMonth characterization -/

theorem stepMonth_eq (st : List Account) (style : Style) (e : ℚ) :
    stepMonth st style e =
      ⟨(allocExtra (rankAccounts ((st.map accrue1).map payMin1) style) ((st.map accrue1).map payMin1) ((st.map accrue1).map minRow1) (max 0 e)).1,
        (allocExtra (rankAccounts ((st.map accrue1).map payMin1) style) ((st.map accrue1).map payMin1) ((st.map accrue1).map minRow1) (max 0 e)).2.1,
        accrueRecord [] st,
        (st.map interest1).sum,
        ((st.map accrue1).map minPaid1).sum,
        (allocExtra (rankAccounts ((st.map accrue1).map payMin1) style) ((st.map accrue1).map payMin1) ((st.map accrue1).map minRow1) (max 0 e)).2.2⟩ := by
  unfold stepMonth
  dsimp only
  rw [accrue_eq, payMins_eq]

theorem stepMonth_debt (st : List Account) (style : Style) (e : ℚ) :
    totalDebt (stepMonth st style e).st
      = totalDebt st + (stepMonth st style e).accrued
        - (stepMonth st style e).totalMin - (stepMonth st style e).totalExtra := by
  rw [stepMonth_eq]
  dsimp only
  rw [allocExtra_debt, totalDebt_payMins, totalDebt_accrue]

theorem stepMonth_interest_sum (st : List Account) (style : Style) (e : ℚ)
    (hN : (st.map (·.id)).Nodup) :
    sumValues (stepMonth st style e).interestById
      = (stepMonth st style e).accrued := by
  rw [stepMonth_eq]
  dsimp only
  have := accrue_record_sum st hN
  rw [accrue_eq] at this
  exact this

theorem stepMonth_ids (st : List Account) (style : Style) (e : ℚ) :
    (stepMonth st style e).st.map (·.id) = st.map (·.id) := by
  rw [stepMonth_eq]
  dsimp only
  rw [(allocExtra_ids _ _ _ _).1, List.map_map, List.map_map]
  exact List.map_congr_left fun a _ => by
    simp only [Function.comp_apply]
    rw [payMin1_id, accrue1_id]

theorem stepMonth_balances_nonneg (st : List Account) (style : Style) (e : ℚ)
    (h : ∀ a ∈ st, 0 ≤ a.balance) :
    ∀ x ∈ (stepMonth st style e).st, 0 ≤ x.balance := by
  rw [stepMonth_eq]
  dsimp only
  refine allocExtra_balances_nonneg _ _ _ _ ?_
  intro x hx
  rcases List.mem_map.mp hx with ⟨y, hy, rfl⟩
  rcases List.mem_map.mp hy with ⟨z, hz, rfl⟩
  exact payMin1_balance_nonneg _ (accrue1_balance_nonneg z (h z hz))

theorem stepMonth_totalMin_nonneg (st : List Account) (style : Style)
    (e : ℚ) : 0 ≤ (stepMonth st style e).totalMin := by
  rw [stepMonth_eq]
  dsimp only
  exact List.sum_nonneg fun x hx => by
    rcases List.mem_map.mp hx with ⟨y, _, rfl⟩
    exact minPaid1_nonneg y

theorem stepMonth_totalExtra_nonneg (st : List Account) (style : Style)
    (e : ℚ) : 0 ≤ (stepMonth st style e).totalExtra := by
  rw [stepMonth_eq]
  dsimp only
  exact allocExtra_extra_nonneg _ _ _ _

theorem stepMonth_accrued_nonneg (st : List Account) (style : Style)
    (e : ℚ) : 0 ≤ (stepMonth st style e).accrued := by
  rw [stepMonth_eq]
  dsimp only
  exact List.sum_nonneg fun x hx => by
    rcases List.mem_map.mp hx with ⟨y, _, rfl⟩
    exact interest1_nonneg y


/-! ### Driver loop: conservation chain (C1) -/

/-- The conservation chain: each recorded row's remaining debt equals the
debt before that month plus the month's recorded interest minus the
month's total paid, the debt before a month being the previous row's
remaining debt (or the initial debt for the first row). -/
def ConsChain : ℚ → List MonthPlan → Prop
  | _, [] => True
  | d, p :: rest =>
    p.remainingDebt = d + p.totalInterest - p.totalPaid
      ∧ ConsChain p.remainingDebt rest

/-- The debt after the last recorded row (the debt before the next month
to be recorded). -/
def tailDebt : ℚ → List MonthPlan → ℚ
  | d, [] => d
  | _, p :: rest => tailDebt p.remainingDebt rest

theorem consChain_append (ps : List MonthPlan) :
    ∀ (d : ℚ) (row : MonthPlan), ConsChain d ps →
      row.remainingDebt = tailDebt d ps + row.totalInterest - row.totalPaid →
      ConsChain d (ps ++ [row]) := by
  induction ps with
  | nil =>
    intro d row _ hrow
    exact ⟨by simpa [tailDebt] using hrow, trivial⟩
  | cons p rest ih =>
    intro d row h hrow
    exact ⟨h.1, ih p.remainingDebt row h.2 (by simpa [tailDebt] using hrow)⟩

theorem tailDebt_append (ps : List MonthPlan) :
    ∀ (d : ℚ) (row : MonthPlan), tailDebt d (ps ++ [row]) = row.remainingDebt := by
  induction ps with
  | nil => intro d row; rfl
  | cons p rest ih => intro d row; exact ih p.remainingDebt row

theorem mkMonthPlan_remainingDebt (m : Nat) (r : StepResult) :
    (mkMonthPlan m r).remainingDebt = totalDebt r.st := rfl

theorem mkMonthPlan_conservation (st : List Account) (style : Style) (e : ℚ)
    (m : Nat) (hN : (st.map (·.id)).Nodup) :
    (mkMonthPlan m (stepMonth st style e)).remainingDebt
      = totalDebt st + (mkMonthPlan m (stepMonth st style e)).totalInterest
        - (mkMonthPlan m (stepMonth st style e)).totalPaid := by
  show totalDebt (stepMonth st style e).st
    = totalDebt st + sumValues (stepMonth st style e).interestById
      - ((stepMonth st style e).totalMin + (stepMonth st style e).totalExtra)
  rw [stepMonth_interest_sum st style e hN, stepMonth_debt]
  ring

theorem loopGo_consChain (inp : List Account) (style : Style) (extra : ℚ)
    (cap want : Nat) (D0 : ℚ) :
    ∀ (fuel m : Nat) (s : LoopSt),
      (s.st.map (·.id)).Nodup →
      ConsChain D0 s.monthPlans →
      (s.monthPlans.length < want → tailDebt D0 s.monthPlans = totalDebt s.st) →
      ConsChain D0 (loopGo inp style extra cap want m fuel s).monthPlans := by
  intro fuel
  induction fuel with
  | zero => intro m s _ hc _; exact hc
  | succ fuel ih =>
    intro m s hN hc htail
    rw [loopGo]
    by_cases hpaid : totalDebt s.st ≤ 1/100
    · rw [if_pos hpaid]; exact hc
    · rw [if_neg hpaid]
      dsimp only
      have hN' : ((stepMonth s.st style extra).st.map (·.id)).Nodup := by
        rw [stepMonth_ids]; exact hN
      by_cases hlen : s.monthPlans.length < want
      · rw [if_pos hlen]
        have hchain : ConsChain D0
            (s.monthPlans ++ [mkMonthPlan m (stepMonth s.st style extra)]) := by
          refine consChain_append s.monthPlans D0 _ hc ?_
          rw [htail hlen]
          exact mkMonthPlan_conservation s.st style extra m hN
        have htail' : tailDebt D0
            (s.monthPlans ++ [mkMonthPlan m (stepMonth s.st style extra)])
            = totalDebt (stepMonth s.st style extra).st := by
          rw [tailDebt_append, mkMonthPlan_remainingDebt]
        by_cases hmid : totalDebt (stepMonth s.st style extra).st ≤ 1/100
        · rw [if_pos hmid]; exact hchain
        · rw [if_neg hmid]
          exact ih (m + 1) _ hN' hchain (fun _ => htail')
      · rw [if_neg hlen]
        by_cases hmid : totalDebt (stepMonth s.st style extra).st ≤ 1/100
        · rw [if_pos hmid]; exact hc
        · rw [if_neg hmid]
          refine ih (m + 1) _ hN' hc ?_
          intro hlt
          exact absurd hlt hlen

theorem initState_ids_nodup (accts : List Account)
    (hN : (accts.map (·.id)).Nodup) :
    ((initState accts).map (·.id)).Nodup := by
  unfold initState
  have h1 : List.Sublist
      (((accts.map cloneAccount).filter initKeep).map (·.id))
      ((accts.map cloneAccount).map (·.id)) :=
    (List.filter_sublist _).map _
  have h2 : (accts.map cloneAccount).map (·.id) = accts.map (·.id) := by
    rw [List.map_map]
    exact List.map_congr_left fun a _ => rfl
  rw [h2] at h1
  exact hN.sublist h1

/-- **C1.** For every account list with distinct ids, every strategy, extra
budget and options, every recorded month row of `simulatePayoff` satisfies
the conservation equation: its remaining debt equals the sum of working
balances before that month (the previous row's remaining debt, or the
initial working debt for month 1) plus that month's recorded total
interest minus that month's total paid — exactly, in rational
arithmetic. -/
theorem simulate_conserves_debt (accts : List Account) (style : Style)
    (e : ℚ) (cap want : Nat) (hN : (accts.map (·.id)).Nodup) :
    ConsChain (totalDebt (initState accts))
      (simulatePayoff accts style e cap want).monthPlans := by
  unfold simulatePayoff simulatePayoffFull
  dsimp only
  exact loopGo_consChain accts style e cap want (totalDebt (initState accts))
    cap 1 ⟨initState accts, 0, 0, [], false⟩
    (initState_ids_nodup accts hN) trivial (fun _ => rfl)

/-- Witness for C1 at a concrete input. -/
theorem simulate_conserves_debt_witness :
    (([mkAcct "a" 1000 24 50, mkAcct "b" 200 0 20].map (·.id)).Nodup)
    ∧ ConsChain (totalDebt (initState [mkAcct "a" 1000 24 50, mkAcct "b" 200 0 20]))
        (simulatePayoff [mkAcct "a" 1000 24 50, mkAcct "b" 200 0 20]
          .avalanche 100 600 600).monthPlans :=
  ⟨by with_unfolding_all decide,
    simulate_conserves_debt [mkAcct "a" 1000 24 50, mkAcct "b" 200 0 20]
      .avalanche 100 600 600 (by with_unfolding_all decide)⟩

/-! ### Driver loop: nonnegative balances (C9) -/

theorem totalDebt_nonneg (st : List Account) (h : ∀ a ∈ st, 0 ≤ a.balance) :
    0 ≤ totalDebt st := by
  unfold totalDebt
  refine sum_nonneg _ ?_
  intro x hx
  rcases List.mem_map.mp hx with ⟨a, ha, rfl⟩
  exact h a ha

theorem loopGo_rows_nonneg (inp : List Account) (style : Style) (extra : ℚ)
    (cap want : Nat) :
    ∀ (fuel m : Nat) (s : LoopSt),
      (∀ a ∈ s.st, 0 ≤ a.balance) →
      (∀ p ∈ s.monthPlans, 0 ≤ p.remainingDebt) →
      ∀ p ∈ (loopGo inp style extra cap want m fuel s).monthPlans,
        0 ≤ p.remainingDebt := by
  intro fuel
  induction fuel with
  | zero => intro m s _ hp; exact hp
  | succ fuel ih =>
    intro m s hst hp
    rw [loopGo]
    by_cases hpaid : totalDebt s.st ≤ 1/100
    · rw [if_pos hpaid]; exact hp
    · rw [if_neg hpaid]
      dsimp only
      have hst' : ∀ a ∈ (stepMonth s.st style extra).st, 0 ≤ a.balance :=
        stepMonth_balances_nonneg s.st style extra hst
      have hplans' : ∀ p ∈ (if s.monthPlans.length < want then
          s.monthPlans ++ [mkMonthPlan m (stepMonth s.st style extra)]
          else s.monthPlans), 0 ≤ p.remainingDebt := by
        by_cases hlen : s.monthPlans.length < want
        · rw [if_pos hlen]
          intro p hmem
          rcases List.mem_append.mp hmem with hmem | hmem
          · exact hp p hmem
          · have : p = mkMonthPlan m (stepMonth s.st style extra) := by
              simpa using hmem
            rw [this, mkMonthPlan_remainingDebt]
            exact totalDebt_nonneg _ hst'
        · rw [if_neg hlen]; exact hp
      by_cases hmid : totalDebt (stepMonth s.st style extra).st ≤ 1/100
      · rw [if_pos hmid]; exact hplans'
      · rw [if_neg hmid]
        exact ih (m + 1) _ hst' hplans'

theorem initState_balances_nonneg (accts : List Account) :
    ∀ a ∈ initState accts, 0 ≤ a.balance := by
  intro a ha
  unfold initState at ha
  have ha' := List.mem_of_mem_filter ha
  rcases List.mem_map.mp ha' with ⟨b, _, rfl⟩
  exact le_max_left 0 b.balance

/-- **C9.** Working balances stay nonnegative: the initial clamped state is
nonnegative, each of the three sub-steps of a month (accrual, minimum
payments, extra allocation) maps a nonnegative working state to a
nonnegative working state, and every emitted month row reports a
nonnegative remaining debt. -/
theorem balances_stay_nonneg :
    (∀ accts : List Account, ∀ a ∈ initState accts, 0 ≤ a.balance)
    ∧ (∀ st : List Account, (∀ a ∈ st, 0 ≤ a.balance) →
        ∀ x ∈ (accrue st).1, 0 ≤ x.balance)
    ∧ (∀ st : List Account, (∀ a ∈ st, 0 ≤ a.balance) →
        ∀ x ∈ (payMins st).1, 0 ≤ x.balance)
    ∧ (∀ (order : List String) (st : List Account)
        (rows : List AllocationRow) (e : ℚ), (∀ a ∈ st, 0 ≤ a.balance) →
        ∀ x ∈ (allocExtra order st rows e).1, 0 ≤ x.balance)
    ∧ (∀ (accts : List Account) (style : Style) (e : ℚ) (cap want : Nat),
        ∀ p ∈ (simulatePayoff accts style e cap want).monthPlans,
          0 ≤ p.remainingDebt) := by
  refine ⟨initState_balances_nonneg, ?_, ?_, allocExtra_balances_nonneg, ?_⟩
  · intro st h x hx
    rw [accrue_eq] at hx
    rcases List.mem_map.mp hx with ⟨a, ha, rfl⟩
    exact accrue1_balance_nonneg a (h a ha)
  · intro st h x hx
    rw [payMins_eq] at hx
    rcases List.mem_map.mp hx with ⟨a, ha, rfl⟩
    exact payMin1_balance_nonneg a (h a ha)
  · intro accts style e cap want p hp
    unfold simulatePayoff simulatePayoffFull at hp
    dsimp only at hp
    exact loopGo_rows_nonneg accts style e cap want cap 1
      ⟨initState accts, 0, 0, [], false⟩
      (initState_balances_nonneg accts) (by intro q hq; simp at hq) p hp

/-- Witness for C9 at a concrete working state. -/
theorem balances_stay_nonneg_witness :
    (∀ a ∈ [mkAcct "a" 100 12 10], 0 ≤ a.balance)
    ∧ (∀ x ∈ (accrue [mkAcct "a" 100 12 10]).1, 0 ≤ x.balance) :=
  ⟨by with_unfolding_all decide,
    balances_stay_nonneg.2.1 [mkAcct "a" 100 12 10]
      (by with_unfolding_all decide)⟩

/-! ### Driver loop: the stalled flag (C3) -/

theorem loopGo_zero (inp : List Account) (style : Style) (extra : ℚ)
    (cap want m : Nat) (s : LoopSt) :
    loopGo inp style extra cap want m 0 s = s := rfl

theorem loopGo_stalled_const (inp : List Account) (style : Style)
    (extra : ℚ) (cap want : Nat) :
    ∀ (fuel m : Nat) (s : LoopSt), 2 ≤ m →
      (loopGo inp style extra cap want m fuel s).stalled = s.stalled := by
  intro fuel
  induction fuel with
  | zero => intro m s _; rfl
  | succ fuel ih =>
    intro m s hm
    rw [loopGo]
    by_cases hpaid : totalDebt s.st ≤ 1/100
    · rw [if_pos hpaid]
    · rw [if_neg hpaid]
      dsimp only
      have hm1 : ¬ m = 1 := by omega
      rw [if_neg hm1]
      by_cases hmid : totalDebt (stepMonth s.st style extra).st ≤ 1/100
      · rw [if_pos hmid]
      · rw [if_neg hmid]
        exact ih (m + 1) _ (by omega)

theorem loopGo_stalled_month1 (inp : List Account) (style : Style)
    (extra : ℚ) (cap want : Nat) (fuel : Nat) (s : LoopSt)
    (hs : s.stalled = false) (hpaid : ¬ totalDebt s.st ≤ 1/100) :
    (loopGo inp style extra cap want 1 (fuel + 1) s).stalled
      = (inp.any (fun a => decide ((1 : ℚ)/100 < a.balance))
          && !(decide ((1 : ℚ)/100000
            < (stepMonth s.st style extra).totalMin
              + (stepMonth s.st style extra).totalExtra))) := by
  rw [loopGo, if_neg hpaid]
  dsimp only
  rw [if_pos rfl]
  have hval : (if (inp.any (fun a => decide ((1 : ℚ)/100 < a.balance))
      && !(decide ((1 : ℚ)/100000
        < (stepMonth s.st style extra).totalMin
          + (stepMonth s.st style extra).totalExtra)) : Bool)
      then true else s.stalled)
      = (inp.any (fun a => decide ((1 : ℚ)/100 < a.balance))
          && !(decide ((1 : ℚ)/100000
            < (stepMonth s.st style extra).totalMin
              + (stepMonth s.st style extra).totalExtra))) := by
    rw [hs]
    cases h : (inp.any (fun a => decide ((1 : ℚ)/100 < a.balance))
        && !(decide ((1 : ℚ)/100000
          < (stepMonth s.st style extra).totalMin
            + (stepMonth s.st style extra).totalExtra))) <;> simp
  rw [hval]
  by_cases hmid : totalDebt (stepMonth s.st style extra).st ≤ 1/100
  · rw [if_pos hmid]
  · rw [if_neg hmid]
    exact loopGo_stalled_const inp style extra cap want fuel 2 _ (by omega)

theorem final_stalled_iff (s : LoopSt) (cap : Nat) (A : Prop)
    (hA : s.stalled = true ↔ A) :
    ((if totalDebt s.st ≤ 1/100 then s.stalled
      else if s.monthsToPayoff = cap then true else s.stalled) = true
      ↔ A ∨ (s.monthsToPayoff = cap ∧ 1/100 < totalDebt s.st)) := by
  by_cases hd : totalDebt s.st ≤ 1/100
  · rw [if_pos hd, hA]
    constructor
    · exact Or.inl
    · rintro (h | ⟨_, h⟩)
      · exact h
      · exact absurd hd (not_le.mpr h)
  · rw [if_neg hd]
    by_cases hm : s.monthsToPayoff = cap
    · rw [if_pos hm]
      constructor
      · intro _
        exact Or.inr ⟨hm, not_le.mp hd⟩
      · intro _
        rfl
    · rw [if_neg hm, hA]
      constructor
      · exact Or.inl
      · rintro (h | ⟨h, _⟩)
        · exact h
        · exact absurd h hm

/-- **C3.** `simulatePayoff` reports `stalled = true` exactly when either
(a) month 1 was stepped (the cap allows a first month and the initial
working debt is above 0.01) while some raw input account has balance above
0.01 and month 1's total minimum plus extra paid is at most 0.00001, or
(b) the run ends with `monthsToPayoff = monthsCap` and the final working
debt still above 0.01; the stall test (a) is evaluated only for month 1. -/
theorem stalled_iff_no_progress (accts : List Account) (style : Style)
    (e : ℚ) (cap want : Nat) :
    (simulatePayoff accts style e cap want).stalled = true ↔
      ((1 ≤ cap ∧ 1/100 < totalDebt (initState accts)
          ∧ (∃ a ∈ accts, (1 : ℚ)/100 < a.balance)
          ∧ (stepMonth (initState accts) style e).totalMin
              + (stepMonth (initState accts) style e).totalExtra ≤ 1/100000)
        ∨ ((simulatePayoff accts style e cap want).monthsToPayoff = cap
            ∧ 1/100 < totalDebt (simulatePayoffFull accts style e cap want).2)) := by
  unfold simulatePayoff simulatePayoffFull
  dsimp only
  cases cap with
  | zero =>
    rw [loopGo_zero]
    dsimp only
    have hA : (false = true ↔ (1 ≤ 0 ∧ 1/100 < totalDebt (initState accts)
        ∧ (∃ a ∈ accts, (1 : ℚ)/100 < a.balance)
        ∧ (stepMonth (initState accts) style e).totalMin
            + (stepMonth (initState accts) style e).totalExtra ≤ 1/100000)) := by
      simp
    exact final_stalled_iff ⟨initState accts, 0, 0, [], false⟩ 0 _ hA
  | succ fuel =>
    by_cases hpaid : totalDebt (initState accts) ≤ 1/100
    · have hs : loopGo accts style e (fuel + 1) want 1 (fuel + 1)
          ⟨initState accts, 0, 0, [], false⟩
          = ⟨initState accts, 0, 0, [], false⟩ := by
        rw [loopGo, if_pos hpaid]
      rw [hs]
      refine final_stalled_iff ⟨initState accts, 0, 0, [], false⟩ (fuel + 1) _ ?_
      simp only [Bool.false_eq_true, false_iff]
      rintro ⟨_, hd, _, _⟩
      exact absurd hpaid (not_le.mpr hd)
    · have hstalled := loopGo_stalled_month1 accts style e (fuel + 1) want fuel
        ⟨initState accts, 0, 0, [], false⟩ rfl hpaid
      refine final_stalled_iff _ (fuel + 1) _ ?_
      rw [hstalled]
      simp only [Bool.and_eq_true, Bool.not_eq_true', decide_eq_false_iff_not,
        List.any_eq_true, decide_eq_true_eq, not_lt]
      constructor
      · rintro ⟨hhad, hprog⟩
        exact ⟨by omega, not_le.mp hpaid, hhad, hprog⟩
      · rintro ⟨_, _, hhad, hprog⟩
        exact ⟨hhad, hprog⟩

/-! ### Negative extra budget (C10) -/

theorem stepMonth_nonpos_extra (st : List Account) (style : Style) (e : ℚ)
    (he : e ≤ 0) : stepMonth st style e = stepMonth st style 0 := by
  unfold stepMonth
  dsimp only
  rw [max_eq_left he, max_self]

theorem loopGo_nonpos_extra (inp : List Account) (style : Style) (e : ℚ)
    (cap want : Nat) (he : e ≤ 0) :
    ∀ (fuel m : Nat) (s : LoopSt),
      loopGo inp style e cap want m fuel s
        = loopGo inp style 0 cap want m fuel s := by
  intro fuel
  induction fuel with
  | zero => intro m s; rfl
  | succ fuel ih =>
    intro m s
    rw [loopGo, loopGo]
    by_cases hpaid : totalDebt s.st ≤ 1/100
    · rw [if_pos hpaid, if_pos hpaid]
    · rw [if_neg hpaid, if_neg hpaid]
      dsimp only
      rw [stepMonth_nonpos_extra s.st style e he]
      by_cases hmid : totalDebt (stepMonth s.st style 0).st ≤ 1/100
      · rw [if_pos hmid, if_pos hmid]
      · rw [if_neg hmid, if_neg hmid]
        exact ih (m + 1) _

/-- **C10.** A negative extra budget behaves exactly like a zero extra
budget: for every account list, strategy and options, a run with extra
budget `e < 0` returns the same result as the run with extra budget 0,
because the monthly extra pool is clamped by `Math.max(0, extraMonthly)`. -/
theorem negative_extra_eq_zero (accts : List Account) (style : Style)
    (e : ℚ) (cap want : Nat) (he : e < 0) :
    simulatePayoff accts style e cap want
      = simulatePayoff accts style 0 cap want := by
  unfold simulatePayoff simulatePayoffFull
  dsimp only
  rw [loopGo_nonpos_extra accts style e cap want (le_of_lt he) cap 1]

/-- Witness for C10 at a concrete input. -/
theorem negative_extra_eq_zero_witness :
    ((-5 : ℚ) < 0)
    ∧ simulatePayoff [mkAcct "a" 100 12 10] .snowball (-5) 600 600
        = simulatePayoff [mkAcct "a" 100 12 10] .snowball 0 600 600 :=
  ⟨by norm_num,
    negative_extra_eq_zero [mkAcct "a" 100 12 10] .snowball (-5) 600 600
      (by norm_num)⟩

/-! ### Zero-debt idempotence (C7) -/

theorem initState_zero_debt (accts : List Account)
    (h : ∀ a ∈ accts, a.balance = 0) : totalDebt (initState accts) = 0 := by
  unfold totalDebt
  rw [sum_eq_listSum]
  refine List.sum_eq_zero ?_
  intro x hx
  rcases List.mem_map.mp hx with ⟨a, ha, rfl⟩
  have ha' := List.mem_of_mem_filter ha
  rcases List.mem_map.mp ha' with ⟨b, hb, rfl⟩
  show max 0 b.balance = 0
  rw [h b hb, max_self]

/-- **C7.** On an account set whose balances are all zero, `simulatePayoff`
returns `monthsToPayoff = 0`, an empty list of month rows, zero total
interest and `stalled = false`, for every strategy, extra budget and
options. -/
theorem zero_debt_simulation (accts : List Account) (style : Style) (e : ℚ)
    (cap want : Nat) (h : ∀ a ∈ accts, a.balance = 0) :
    (simulatePayoff accts style e cap want).monthsToPayoff = 0
    ∧ (simulatePayoff accts style e cap want).totalInterest = 0
    ∧ (simulatePayoff accts style e cap want).monthPlans = []
    ∧ (simulatePayoff accts style e cap want).stalled = false := by
  have hle : totalDebt (initState accts) ≤ 1/100 := by
    rw [initState_zero_debt accts h]
    norm_num
  unfold simulatePayoff simulatePayoffFull
  dsimp only
  cases cap with
  | zero =>
    rw [loopGo_zero]
    dsimp only
    exact ⟨rfl, rfl, rfl, by rw [if_pos hle]⟩
  | succ n =>
    rw [loopGo, if_pos hle]
    dsimp only
    exact ⟨rfl, rfl, rfl, by rw [if_pos hle]⟩

/-- Witness for C7 at a concrete input. -/
theorem zero_debt_simulation_witness :
    (∀ a ∈ [mkAcct "a" 0 24 50], a.balance = 0)
    ∧ ((simulatePayoff [mkAcct "a" 0 24 50] .avalanche 100 600 600).monthsToPayoff = 0
      ∧ (simulatePayoff [mkAcct "a" 0 24 50] .avalanche 100 600 600).totalInterest = 0
      ∧ (simulatePayoff [mkAcct "a" 0 24 50] .avalanche 100 600 600).monthPlans = []
      ∧ (simulatePayoff [mkAcct "a" 0 24 50] .avalanche 100 600 600).stalled = false) :=
  ⟨by with_unfolding_all decide,
    zero_debt_simulation [mkAcct "a" 0 24 50] .avalanche 100 600 600
      (by with_unfolding_all decide)⟩

/-! ### Monotonic decrease (C5) -/

theorem getD_of_le (l : List α) (d : α) :
    ∀ i, l.length ≤ i → l.getD i d = d := by
  induction l with
  | nil => intro i _; rfl
  | cons x xs ih =>
    intro i hi
    cases i with
    | zero => simp at hi
    | succ j =>
      rw [List.getD_cons_succ]
      exact ih j (by simpa using hi)

theorem getD_map_of_lt (f : α → β) (l : List α) :
    ∀ (i : Nat), i < l.length → ∀ (d : β) (d' : α),
      (l.map f).getD i d = f (l.getD i d') := by
  induction l with
  | nil => intro i hi; simp at hi
  | cons x xs ih =>
    intro i hi d d'
    cases i with
    | zero => rfl
    | succ j =>
      rw [List.map_cons, List.getD_cons_succ, List.getD_cons_succ]
      exact ih j (by simpa using hi) d d'

/-- The counterexample working state for the C5 claim as stated: account
`"a"` is already paid off (balance 0) but has a positive minimum payment,
account `"b"` carries the debt that keeps the month simulated. -/
def c5st : List Account := initState [mkAcct "a" 0 0 10, mkAcct "b" 100 0 5]

/-- **C5 counterexample.** In month 1 of the run on `[a: balance 0, min 10;
b: balance 100, min 5]`, account `a` satisfies the claim's hypothesis
(minimum payment 10 plus allocated extra 0 exceeds its accrued interest 0)
yet its balance does not strictly decrease: it stays at 0, because the
engine skips accounts at or below the 0.01 threshold entirely. -/
theorem min_payment_reduces_balance_cex :
    (c5st.map (·.id)).Nodup
    ∧ interest1 (c5st.getD 0 dAccount)
        < (c5st.getD 0 dAccount).minPay
          + ((stepMonth c5st .avalanche 0).allocs.getD 0 dRow).extra
    ∧ ¬ (((stepMonth c5st .avalanche 0).st.getD 0 dAccount).balance
          < (c5st.getD 0 dAccount).balance) := by
  with_unfolding_all decide

/-- **C5 (amended).** For every working state with distinct ids, every
strategy and extra budget, and every account position: if the account's
start-of-month balance is above the 0.01 activity threshold and its
minimum payment plus the extra actually allocated to it that month exceeds
the interest accrued on it that month, then its end-of-month balance is
strictly below its start-of-month balance.  (The amendment adds the
activity threshold on the start-of-month balance, which the counterexample
shows is necessary: an account at or below the threshold is skipped and
keeps its balance.) -/
theorem min_payment_reduces_balance (st : List Account) (style : Style)
    (e : ℚ) (i : Nat) (hN : (st.map (·.id)).Nodup)
    (hbal : 1/100 < (st.getD i dAccount).balance)
    (hpay : interest1 (st.getD i dAccount)
      < (st.getD i dAccount).minPay
        + ((stepMonth st style e).allocs.getD i dRow).extra) :
    ((stepMonth st style e).st.getD i dAccount).balance
      < (st.getD i dAccount).balance := by
  rcases Nat.lt_or_ge i st.length with hi | hi
  swap
  · rw [getD_of_le st dAccount i hi] at hbal
    norm_num [dAccount] at hbal
  · have hlen1 : i < (st.map accrue1).length := by simpa using hi
    have hlen2 : i < ((st.map accrue1).map payMin1).length := by simpa using hi
    have hN2 : (((st.map accrue1).map payMin1).map (·.id)).Nodup := by
      rw [List.map_map, List.map_map]
      have heq : st.map (((fun x : Account => x.id) ∘ payMin1) ∘ accrue1)
          = st.map (fun a : Account => a.id) :=
        List.map_congr_left fun a _ => by
          simp only [Function.comp_apply]
          rw [payMin1_id, accrue1_id]
      rw [heq]
      exact hN
    have halign : ((st.map accrue1).map minRow1).map (·.accountId)
        = ((st.map accrue1).map payMin1).map (·.id) := by
      rw [List.map_map, List.map_map, List.map_map, List.map_map]
      refine List.map_congr_left fun a _ => ?_
      simp only [Function.comp_apply]
      rw [payMin1_id]
      exact rfl
    have key := allocExtra_index
      (rankAccounts ((st.map accrue1).map payMin1) style)
      ((st.map accrue1).map payMin1) ((st.map accrue1).map minRow1)
      (max 0 e) hN2 halign i
    rw [stepMonth_eq] at hpay ⊢
    dsimp only at hpay ⊢
    have hst2 : ((st.map accrue1).map payMin1).getD i dAccount
        = payMin1 (accrue1 (st.getD i dAccount)) := by
      rw [getD_map_of_lt payMin1 (st.map accrue1) i hlen1 dAccount dAccount,
        getD_map_of_lt accrue1 st i hi dAccount dAccount]
    have hrows : ((st.map accrue1).map minRow1).getD i dRow
        = minRow1 (accrue1 (st.getD i dAccount)) := by
      rw [getD_map_of_lt minRow1 (st.map accrue1) i hlen1 dRow dAccount,
        getD_map_of_lt accrue1 st i hi dAccount dAccount]
    have hI : (0 : ℚ) ≤ interest1 (st.getD i dAccount) :=
      interest1_nonneg _
    have haccbal : (accrue1 (st.getD i dAccount)).balance
        = (st.getD i dAccount).balance + interest1 (st.getD i dAccount) :=
      balance_accrue1 _
    have hacc_gt : ¬ (accrue1 (st.getD i dAccount)).balance ≤ 1/100 := by
      rw [haccbal]
      intro hcontra
      linarith
    have hminpay : (accrue1 (st.getD i dAccount)).minPay
        = (st.getD i dAccount).minPay := accrue1_minPay _
    have hpm : (payMin1 (accrue1 (st.getD i dAccount))).balance
        = (accrue1 (st.getD i dAccount)).balance
          - clamp (st.getD i dAccount).minPay 0
            (accrue1 (st.getD i dAccount)).balance := by
      unfold payMin1
      rw [if_neg hacc_gt, hminpay]
    have hrow_extra : (minRow1 (accrue1 (st.getD i dAccount))).extra = 0 := rfl
    have h1 := key.1
    have h2 := key.2.1
    rw [hst2, hrows, hrow_extra] at h1
    rw [hrows, hrow_extra] at h2
    rw [h1, hpm, haccbal]
    set E := ((allocExtra
      (rankAccounts ((st.map accrue1).map payMin1) style)
      ((st.map accrue1).map payMin1) ((st.map accrue1).map minRow1)
      (max 0 e)).2.1.getD i dRow).extra with hE
    have hE0 : (0 : ℚ) ≤ E := h2
    set b := (st.getD i dAccount).balance with hb
    set I := interest1 (st.getD i dAccount) with hI'
    set mp := (st.getD i dAccount).minPay with hmp
    have hM : clamp mp 0 (b + I) = max 0 (min (b + I) mp) := rfl
    rcases le_total mp (b + I) with hle | hge
    · have : min (b + I) mp = mp := min_eq_right hle
      rw [hM, this]
      have hMge : mp ≤ max 0 mp := le_max_right 0 mp
      linarith
    · have : min (b + I) mp = b + I := min_eq_left hge
      rw [hM, this]
      have hbi : (0 : ℚ) ≤ b + I := by linarith
      rw [max_eq_right hbi]
      linarith

/-- Witness for the amended C5 at a concrete input. -/
theorem min_payment_reduces_balance_witness :
    (([mkAcct "a" 100 12 20].map (·.id)).Nodup
      ∧ 1/100 < ([mkAcct "a" 100 12 20].getD 0 dAccount).balance
      ∧ interest1 ([mkAcct "a" 100 12 20].getD 0 dAccount)
          < ([mkAcct "a" 100 12 20].getD 0 dAccount).minPay
            + ((stepMonth [mkAcct "a" 100 12 20] .avalanche 0).allocs.getD 0
                dRow).extra)
    ∧ ((stepMonth [mkAcct "a" 100 12 20] .avalanche 0).st.getD 0
        dAccount).balance
      < ([mkAcct "a" 100 12 20].getD 0 dAccount).balance :=
  ⟨⟨by with_unfolding_all decide, by with_unfolding_all decide,
      by with_unfolding_all decide⟩,
    min_payment_reduces_balance [mkAcct "a" 100 12 20] .avalanche 0 0
      (by with_unfolding_all decide) (by with_unfolding_all decide)
      (by with_unfolding_all decide)⟩

/-! ### Paid-off accounts in the month row (C4) -/

theorem stepMonth_alloc_ids (st : List Account) (style : Style) (e : ℚ) :
    (stepMonth st style e).allocs.map (·.accountId) = st.map (·.id) := by
  rw [stepMonth_eq]
  dsimp only
  rw [(allocExtra_ids _ _ _ _).2, List.map_map, List.map_map]
  refine List.map_congr_left fun a _ => ?_
  show (accrue1 a).id = a.id
  rw [accrue1_id]

/-- **C4 counterexample.** In the run on `[a: balance 0, min 10; b:
balance 100, min 10]`, account `a` is part of the working state (it is
kept because its minimum payment is positive) and is fully paid
(balance ≤ 0.00001), yet the first emitted month row's per-account
breakdown does not contain it at all — the row keeps only entries with
positive activity, so the claim that the account "still appears ... with
zero values" fails. -/
theorem paid_account_hidden_cex :
    ((initState [mkAcct "a" 0 0 10, mkAcct "b" 100 0 10]).getD 0
        dAccount).id = "a"
    ∧ ((initState [mkAcct "a" 0 0 10, mkAcct "b" 100 0 10]).getD 0
        dAccount).balance ≤ 1/100000
    ∧ (simulatePayoffDefault [mkAcct "a" 0 0 10, mkAcct "b" 100 0 10]
        .avalanche 0).monthPlans ≠ []
    ∧ "a" ∉ (((simulatePayoffDefault [mkAcct "a" 0 0 10, mkAcct "b" 100 0 10]
        .avalanche 0).monthPlans.getD 0 dPlan).allocations.map
          (·.accountId)) := by
  with_unfolding_all decide

/-- **C4 (amended).** An account of the working state whose balance is at
most 0.00001 is excluded from ranking and receives no payment: its
internal allocation entry stays at zero minimum, zero extra and zero
total; but the emitted month row drops zero-activity entries, so the
account does **not** appear in the row's per-account breakdown.  (The
amendment replaces the claim's "still appears in that row's per-account
breakdown with zero values" by its absence from the emitted breakdown,
which is what the code's activity filter produces.) -/
theorem paid_account_hidden (st : List Account) (style : Style) (e : ℚ)
    (m : Nat) (i : Nat) (hN : (st.map (·.id)).Nodup) (hi : i < st.length)
    (hpaid : (st.getD i dAccount).balance ≤ 1/100000) :
    (st.getD i dAccount).id ∉ rankAccounts st style
    ∧ (stepMonth st style e).allocs.getD i dRow
        = ⟨(st.getD i dAccount).id, nameOr (st.getD i dAccount).name, 0, 0, 0⟩
    ∧ (st.getD i dAccount).id
        ∉ ((mkMonthPlan m (stepMonth st style e)).allocations.map
            (·.accountId)) := by
  have hp01 : (st.getD i dAccount).balance ≤ 1/100 := by
    have : (1 : ℚ)/100000 ≤ 1/100 := by norm_num
    linarith
  have hacc : accrue1 (st.getD i dAccount) = st.getD i dAccount := by
    unfold accrue1
    rw [if_pos hp01]
  have hpm : payMin1 (st.getD i dAccount) = st.getD i dAccount := by
    unfold payMin1
    rw [if_pos hp01]
  have hmr : minRow1 (st.getD i dAccount)
      = ⟨(st.getD i dAccount).id, nameOr (st.getD i dAccount).name,
          0, 0, 0⟩ := by
    unfold minRow1 minPaid1
    rw [if_pos hp01]
  have hlen1 : i < (st.map accrue1).length := by simpa using hi
  have hN2 : (((st.map accrue1).map payMin1).map (·.id)).Nodup := by
    rw [List.map_map, List.map_map]
    have heq : st.map (((fun x : Account => x.id) ∘ payMin1) ∘ accrue1)
        = st.map (fun a : Account => a.id) :=
      List.map_congr_left fun a _ => by
        simp only [Function.comp_apply]
        rw [payMin1_id, accrue1_id]
    rw [heq]
    exact hN
  have halign : ((st.map accrue1).map minRow1).map (·.accountId)
      = ((st.map accrue1).map payMin1).map (·.id) := by
    rw [List.map_map, List.map_map, List.map_map, List.map_map]
    refine List.map_congr_left fun a _ => ?_
    show (minRow1 (accrue1 a)).accountId = (payMin1 (accrue1 a)).id
    rw [payMin1_id]
    exact rfl
  have hst2 : ((st.map accrue1).map payMin1).getD i dAccount
      = st.getD i dAccount := by
    rw [getD_map_of_lt payMin1 (st.map accrue1) i hlen1 dAccount dAccount,
      getD_map_of_lt accrue1 st i hi dAccount dAccount, hacc, hpm]
  have hrows : ((st.map accrue1).map minRow1).getD i dRow
      = ⟨(st.getD i dAccount).id, nameOr (st.getD i dAccount).name,
          0, 0, 0⟩ := by
    rw [getD_map_of_lt minRow1 (st.map accrue1) i hlen1 dRow dAccount,
      getD_map_of_lt accrue1 st i hi dAccount dAccount, hacc, hmr]
  have key := (allocExtra_index
    (rankAccounts ((st.map accrue1).map payMin1) style)
    ((st.map accrue1).map payMin1) ((st.map accrue1).map minRow1)
    (max 0 e) hN2 halign i).2.2.2 (by rw [hst2]; exact hp01)
  have hallocsD : (stepMonth st style e).allocs.getD i dRow
      = ⟨(st.getD i dAccount).id, nameOr (st.getD i dAccount).name,
          0, 0, 0⟩ := by
    rw [stepMonth_eq]
    dsimp only
    rw [key.2, hrows]
  refine ⟨rank_not_mem_of_paid st style hN _ (getD_mem st i dAccount hi)
    hpaid, hallocsD, ?_⟩
  intro hmem
  rcases List.mem_map.mp hmem with ⟨r, hr, hrid⟩
  have hr' : r ∈ (stepMonth st style e).allocs.filter
      (fun x => decide ((1 : ℚ)/100000 < x.min + x.extra)) := by
    have : (mkMonthPlan m (stepMonth st style e)).allocations
        = List.insertionSort (fun x y => y.total - x.total ≤ 0)
          ((stepMonth st style e).allocs.filter
            (fun x => decide ((1 : ℚ)/100000 < x.min + x.extra))) := rfl
    rw [this] at hr
    exact (List.mem_insertionSort _).mp hr
  have hrA := List.mem_of_mem_filter hr'
  have hrpred := (List.mem_filter.mp hr').2
  have hAids : ((stepMonth st style e).allocs.map (·.accountId)).Nodup := by
    rw [stepMonth_alloc_ids]
    exact hN
  have hAlen : i < (stepMonth st style e).allocs.length := by
    have := congrArg List.length (stepMonth_alloc_ids st style e)
    simp only [List.length_map] at this
    omega
  have hDmem : (stepMonth st style e).allocs.getD i dRow
      ∈ (stepMonth st style e).allocs :=
    getD_mem _ i dRow hAlen
  have hreq : r = (stepMonth st style e).allocs.getD i dRow := by
    refine List.inj_on_of_nodup_map hAids hrA hDmem ?_
    rw [hallocsD, hrid]
  rw [hreq, hallocsD] at hrpred
  simp only [decide_eq_true_eq] at hrpred
  norm_num at hrpred

/-- Witness for the amended C4 at a concrete input. -/
theorem paid_account_hidden_witness :
    (((initState [mkAcct "a" 0 0 10, mkAcct "b" 100 0 10]).map
        (·.id)).Nodup
      ∧ 0 < (initState [mkAcct "a" 0 0 10, mkAcct "b" 100 0 10]).length
      ∧ ((initState [mkAcct "a" 0 0 10, mkAcct "b" 100 0 10]).getD 0
          dAccount).balance ≤ 1/100000)
    ∧ (((initState [mkAcct "a" 0 0 10, mkAcct "b" 100 0 10]).getD 0
          dAccount).id
        ∉ rankAccounts (initState [mkAcct "a" 0 0 10, mkAcct "b" 100 0 10])
            .avalanche
      ∧ (stepMonth (initState [mkAcct "a" 0 0 10, mkAcct "b" 100 0 10])
          .avalanche 0).allocs.getD 0 dRow
          = ⟨((initState [mkAcct "a" 0 0 10, mkAcct "b" 100 0 10]).getD 0
              dAccount).id,
            nameOr ((initState [mkAcct "a" 0 0 10, mkAcct "b" 100 0 10]).getD
              0 dAccount).name, 0, 0, 0⟩
      ∧ ((initState [mkAcct "a" 0 0 10, mkAcct "b" 100 0 10]).getD 0
          dAccount).id
          ∉ ((mkMonthPlan 1 (stepMonth
              (initState [mkAcct "a" 0 0 10, mkAcct "b" 100 0 10])
              .avalanche 0)).allocations.map (·.accountId))) :=
  ⟨⟨by with_unfolding_all decide, by with_unfolding_all decide,
      by with_unfolding_all decide⟩,
    paid_account_hidden (initState [mkAcct "a" 0 0 10, mkAcct "b" 100 0 10])
      .avalanche 0 1 0 (by with_unfolding_all decide)
      (by with_unfolding_all decide) (by with_unfolding_all decide)⟩

/-! ### The stall scenario: one account, balance 500, APR 20, minimum 0,
extra 0 (C6) -/

/-- The single C6 account, parametrized by its current balance. -/
def c6bal (b : ℚ) : Account := mkAcct "a" b 20 0

/-- The C6 input: one account with balance 500, APR 20%, minimum 0. -/
def c6input : List Account := [c6bal 500]

/-- The month rows produced by the C6 run: starting from balance `b` at
month `m`, each month accrues interest `b/60` and pays nothing, leaving
balance `b * 61/60`. -/
def c6trace : Nat → Nat → ℚ → List MonthPlan
  | 0, _, _ => []
  | fuel + 1, m, b =>
    ⟨m, [], 0, 0, 0, b * (1/60), b * (61/60)⟩
      :: c6trace fuel (m + 1) (b * (61/60))

theorem c6bal_not_small (b : ℚ) (hb : 500 ≤ b) :
    ¬ (c6bal b).balance ≤ 1/100 := by
  show ¬ b ≤ 1/100
  intro h
  have : (1 : ℚ)/100 < 500 := by norm_num
  linarith

theorem c6_accrue1 (b : ℚ) (hb : 500 ≤ b) :
    accrue1 (c6bal b) = c6bal (b * (61/60)) := by
  unfold accrue1
  rw [if_neg (c6bal_not_small b hb)]
  show c6bal (b + b * monthlyRate 20) = c6bal (b * (61/60))
  congr 1
  rw [show monthlyRate 20 = 1/60 from by unfold monthlyRate; norm_num]
  ring

theorem c6_interest1 (b : ℚ) (hb : 500 ≤ b) :
    interest1 (c6bal b) = b * (1/60) := by
  unfold interest1
  rw [if_neg (c6bal_not_small b hb)]
  show b * monthlyRate 20 = b * (1/60)
  rw [show monthlyRate 20 = 1/60 from by unfold monthlyRate; norm_num]

theorem c6_clamp0 (x : ℚ) (hx : 0 ≤ x) : clamp 0 0 x = 0 := by
  unfold clamp
  rw [min_eq_right hx, max_self]

theorem c6_payMin1 (x : ℚ) (hx : 500 ≤ x) : payMin1 (c6bal x) = c6bal x := by
  unfold payMin1
  rw [if_neg (c6bal_not_small x hx)]
  show c6bal (x - clamp 0 0 x) = c6bal x
  congr 1
  rw [c6_clamp0 x (by linarith), sub_zero]

theorem c6_minPaid1 (x : ℚ) (hx : 500 ≤ x) : minPaid1 (c6bal x) = 0 := by
  unfold minPaid1
  rw [if_neg (c6bal_not_small x hx)]
  show clamp 0 0 x = 0
  exact c6_clamp0 x (by linarith)

theorem c6_minRow1 (x : ℚ) (hx : 500 ≤ x) :
    minRow1 (c6bal x) = ⟨"a", "a", 0, 0, 0⟩ := by
  unfold minRow1
  rw [c6_minPaid1 x hx]
  show (⟨"a", nameOr "a", 0, 0, 0⟩ : AllocationRow) = ⟨"a", "a", 0, 0, 0⟩
  rw [show nameOr "a" = "a" from by with_unfolding_all decide]

theorem allocExtra_zero (order : List String) (st : List Account)
    (rows : List AllocationRow) :
    allocExtra order st rows 0 = (st, rows, 0) := by
  cases order with
  | nil => rfl
  | cons idv rest => rw [allocExtra, if_pos (by norm_num)]

theorem c6_totalDebt (b : ℚ) : totalDebt [c6bal b] = b := by
  unfold totalDebt sum
  rw [List.map_cons, List.map_nil, List.foldl_cons, List.foldl_nil]
  show 0 + b = b
  rw [zero_add]

theorem c6_step (b : ℚ) (hb : 500 ≤ b) :
    stepMonth [c6bal b] .avalanche 0
      = ⟨[c6bal (b * (61/60))], [⟨"a", "a", 0, 0, 0⟩],
          [("a", b * (1/60))], b * (1/60), 0, 0⟩ := by
  have hb' : (500 : ℚ) ≤ b * (61/60) := by linarith
  rw [stepMonth_eq]
  have h1 : [c6bal b].map accrue1 = [c6bal (b * (61/60))] := by
    rw [List.map_cons, List.map_nil, c6_accrue1 b hb]
  have h2 : [c6bal (b * (61/60))].map payMin1 = [c6bal (b * (61/60))] := by
    rw [List.map_cons, List.map_nil, c6_payMin1 _ hb']
  have h3 : [c6bal (b * (61/60))].map minRow1
      = [(⟨"a", "a", 0, 0, 0⟩ : AllocationRow)] := by
    rw [List.map_cons, List.map_nil, c6_minRow1 _ hb']
  have h4 : accrueRecord [] [c6bal b] = [("a", b * (1/60))] := by
    unfold accrueRecord
    rw [List.foldl_cons, List.foldl_nil]
    show recordSet [] (c6bal b).id (interest1 (c6bal b)) = [("a", b * (1/60))]
    rw [c6_interest1 b hb]
    rfl
  have h5 : ([c6bal b].map interest1).sum = b * (1/60) := by
    rw [List.map_cons, List.map_nil, c6_interest1 b hb, List.sum_cons,
      List.sum_nil, add_zero]
  have h6 : ([c6bal (b * (61/60))].map minPaid1).sum = 0 := by
    rw [List.map_cons, List.map_nil, c6_minPaid1 _ hb', List.sum_cons,
      List.sum_nil, add_zero]
  rw [h1, h2, h3, h4, h5, h6]
  rw [show max (0 : ℚ) 0 = 0 from max_self 0, allocExtra_zero]

theorem c6_mkplan (m : Nat) (b : ℚ) (hb : 500 ≤ b) :
    mkMonthPlan m (stepMonth [c6bal b] .avalanche 0)
      = ⟨m, [], 0, 0, 0, b * (1/60), b * (61/60)⟩ := by
  rw [c6_step b hb]
  unfold mkMonthPlan
  have hfilt : ([(⟨"a", "a", 0, 0, 0⟩ : AllocationRow)]).filter
      (fun x => decide ((1 : ℚ)/100000 < x.min + x.extra)) = [] := by
    with_unfolding_all decide
  dsimp only
  rw [hfilt]
  have hsv : sumValues [("a", b * (1/60))] = b * (1/60) := by
    unfold sumValues sum
    rw [List.map_cons, List.map_nil, List.foldl_cons, List.foldl_nil, zero_add]
  rw [hsv, c6_totalDebt]
  rw [show (List.insertionSort (fun x y : AllocationRow =>
      y.total - x.total ≤ 0) []) = [] from rfl]
  rw [add_zero]

theorem c6_loop :
    ∀ (fuel m : Nat) (b ti : ℚ) (mtp : Nat) (plans : List MonthPlan)
      (stal : Bool), 500 ≤ b → 2 ≤ m → plans.length + fuel ≤ 600 →
      ∃ (ti' : ℚ) (mtp' : Nat),
        loopGo c6input .avalanche 0 600 600 m fuel
          ⟨[c6bal b], ti, mtp, plans, stal⟩
          = ⟨[c6bal (b * (61/60) ^ fuel)], ti', mtp',
              plans ++ c6trace fuel m b, stal⟩ := by
  intro fuel
  induction fuel with
  | zero =>
    intro m b ti mtp plans stal hb hm hlen
    refine ⟨ti, mtp, ?_⟩
    rw [loopGo_zero, pow_zero, mul_one,
      show c6trace 0 m b = [] from rfl, List.append_nil]
  | succ fuel ih =>
    intro m b ti mtp plans stal hb hm hlen
    have hb' : (500 : ℚ) ≤ b * (61/60) := by linarith
    have hpaid : ¬ totalDebt [c6bal b] ≤ 1/100 := by
      rw [c6_totalDebt]
      intro h
      have : (1 : ℚ)/100 < 500 := by norm_num
      linarith
    rw [loopGo, if_neg hpaid]
    dsimp only
    rw [c6_mkplan m b hb, c6_step b hb]
    dsimp only
    rw [if_neg (show ¬ m = 1 by omega),
      if_pos (show plans.length < 600 by omega)]
    rw [if_neg (show ¬ totalDebt [c6bal (b * (61/60))] ≤ 1/100 by
      rw [c6_totalDebt]
      intro h
      have h1 : (1 : ℚ)/100 < 500 := by norm_num
      linarith)]
    obtain ⟨ti2, mtp2, hrec⟩ := ih (m + 1) (b * (61/60)) (ti + b * (1/60))
      (if m = 600 then 600 else mtp)
      (plans ++ [⟨m, [], 0, 0, 0, b * (1/60), b * (61/60)⟩]) stal hb'
      (by omega) (by rw [List.length_append]; simpa using (by omega : plans.length + 1 + fuel ≤ 600))
    refine ⟨ti2, mtp2, ?_⟩
    rw [hrec]
    rw [show c6trace (fuel + 1) m b
      = ⟨m, [], 0, 0, 0, b * (1/60), b * (61/60)⟩
        :: c6trace fuel (m + 1) (b * (61/60)) from rfl]
    rw [List.append_assoc, List.singleton_append]
    rw [show b * (61/60) * (61/60) ^ fuel = b * (61/60) ^ (fuel + 1) from by
      rw [pow_succ]
      ring]

theorem c6trace_length : ∀ (fuel m : Nat) (b : ℚ),
    (c6trace fuel m b).length = fuel := by
  intro fuel
  induction fuel with
  | zero => intro m b; rfl
  | succ fuel ih =>
    intro m b
    rw [show c6trace (fuel + 1) m b
      = ⟨m, [], 0, 0, 0, b * (1/60), b * (61/60)⟩
        :: c6trace fuel (m + 1) (b * (61/60)) from rfl]
    rw [List.length_cons, ih]

theorem c6trace_chain : ∀ (fuel m : Nat) (b : ℚ), 500 ≤ b →
    List.Chain' (fun p q : MonthPlan => p.remainingDebt < q.remainingDebt)
      (c6trace fuel m b) := by
  intro fuel
  induction fuel with
  | zero => intro m b _; exact List.chain'_nil
  | succ fuel ih =>
    intro m b hb
    cases fuel with
    | zero => exact List.chain'_singleton _
    | succ k =>
      rw [show c6trace (k + 1 + 1) m b
        = ⟨m, [], 0, 0, 0, b * (1/60), b * (61/60)⟩
          :: (⟨m + 1, [], 0, 0, 0, b * (61/60) * (1/60),
              b * (61/60) * (61/60)⟩
            :: c6trace k (m + 2) (b * (61/60) * (61/60))) from rfl]
      rw [List.chain'_cons]
      constructor
      · show b * (61/60) < b * (61/60) * (61/60)
        nlinarith
      · exact ih (m + 1) (b * (61/60)) (by linarith)

theorem ite_true_all (c d : Prop) [Decidable c] [Decidable d] :
    (if c then true else if d then true else true) = true := by
  split
  · rfl
  · split <;> rfl

theorem c6_month1 (fuel : Nat) :
    loopGo c6input .avalanche 0 600 600 1 (fuel + 1)
      ⟨[c6bal 500], 0, 0, [], false⟩
      = loopGo c6input .avalanche 0 600 600 2 fuel
          ⟨[c6bal (500 * (61/60))], 0 + 500 * (1/60), 0,
            [] ++ [⟨1, [], 0, 0, 0, 500 * (1/60), 500 * (61/60)⟩], true⟩ := by
  have hpaid : ¬ totalDebt [c6bal 500] ≤ 1/100 := by
    rw [c6_totalDebt]
    norm_num
  rw [loopGo, if_neg hpaid]
  dsimp only
  rw [c6_mkplan 1 500 (by norm_num), c6_step 500 (by norm_num)]
  dsimp only
  rw [if_pos rfl]
  rw [show (c6input.any fun a => decide ((1 : ℚ)/100 < a.balance)) = true
    from by with_unfolding_all decide]
  rw [show (decide ((1 : ℚ)/100000 < (0 : ℚ) + 0)) = false
    from by with_unfolding_all decide]
  rw [show (true && !false) = true from rfl]
  rw [if_pos rfl]
  rw [if_pos (show ([] : List MonthPlan).length < 600 by norm_num)]
  rw [if_neg (show ¬ totalDebt [c6bal (500 * (61/60))] ≤ 1/100 by
    rw [c6_totalDebt]
    norm_num)]
  rw [if_neg (show ¬ (1 : Nat) = 600 by omega)]

/-- One-step unfolding of the C6 trace at the top of the run. -/
theorem c6trace_unfold_600 :
    c6trace 600 1 500
      = ⟨1, [], 0, 0, 0, 500 * (1/60), 500 * (61/60)⟩
        :: c6trace 599 2 (500 * (61/60)) := by
  show c6trace (599 + 1) 1 500
    = ⟨1, [], 0, 0, 0, 500 * (1/60), 500 * (61/60)⟩
      :: c6trace 599 2 (500 * (61/60))
  rfl

theorem c6_month1_600 :
    loopGo c6input .avalanche 0 600 600 1 600
      ⟨[c6bal 500], 0, 0, [], false⟩
      = loopGo c6input .avalanche 0 600 600 2 599
          ⟨[c6bal (500 * (61/60))], 0 + 500 * (1/60), 0,
            [] ++ [⟨1, [], 0, 0, 0, 500 * (1/60), 500 * (61/60)⟩], true⟩ :=
  c6_month1 599

set_option maxRecDepth 4000 in
/-- **C6.** On the single account with balance 500, APR 20%, minimum
payment 0, and extra budget 0 (default options), `simulatePayoff` returns
`stalled = true` — the flag is already set right after month 1 — and the
recorded run shows the balance strictly increasing at every simulated
month: all 600 months are recorded, the remaining debt of consecutive
rows strictly increases, and the first row's remaining debt already
exceeds the starting balance 500. -/
theorem stall_scenario_500_20 :
    (simulatePayoffDefault c6input .avalanche 0).stalled = true
    ∧ (loopGo c6input .avalanche 0 600 600 1 1
        ⟨initState c6input, 0, 0, [], false⟩).stalled = true
    ∧ (simulatePayoffDefault c6input .avalanche 0).monthPlans.length = 600
    ∧ List.Chain' (fun p q : MonthPlan => p.remainingDebt < q.remainingDebt)
        ((simulatePayoffDefault c6input .avalanche 0).monthPlans)
    ∧ 500 < ((simulatePayoffDefault c6input .avalanche 0).monthPlans.getD 0
        dPlan).remainingDebt := by
  have hinit : initState c6input = [c6bal 500] := by
    with_unfolding_all decide
  obtain ⟨ti', mtp', hrec⟩ := c6_loop 599 2 (500 * (61/60)) (0 + 500 * (1/60))
    0 ([] ++ [⟨1, [], 0, 0, 0, 500 * (1/60), 500 * (61/60)⟩]) true
    (by norm_num) (by norm_num)
    (by rw [List.nil_append, List.length_cons, List.length_nil])
  have hplans : ([] ++ [(⟨1, [], 0, 0, 0, 500 * (1/60), 500 * (61/60)⟩ :
      MonthPlan)]) ++ c6trace 599 2 (500 * (61/60))
      = c6trace 600 1 500 := by
    rw [c6trace_unfold_600, List.nil_append, List.singleton_append]
  have hfinal : loopGo c6input .avalanche 0 600 600 1 600
      ⟨[c6bal 500], 0, 0, [], false⟩
      = ⟨[c6bal (500 * (61/60) * (61/60) ^ 599)], ti', mtp',
          c6trace 600 1 500, true⟩ := by
    rw [c6_month1_600, hrec, hplans]
  refine ⟨?_, ?_, ?_, ?_, ?_⟩
  · show (simulatePayoffFull c6input .avalanche 0 600 600).1.stalled = true
    unfold simulatePayoffFull
    dsimp only
    rw [hinit, hfinal]
    exact ite_true_all _ _
  · rw [hinit, c6_month1 0, loopGo_zero]
  · show (simulatePayoffFull c6input .avalanche 0 600 600).1.monthPlans.length
      = 600
    unfold simulatePayoffFull
    dsimp only
    rw [hinit, hfinal]
    show (c6trace 600 1 500).length = 600
    rw [c6trace_length]
  · show List.Chain' (fun p q : MonthPlan => p.remainingDebt < q.remainingDebt)
      (simulatePayoffFull c6input .avalanche 0 600 600).1.monthPlans
    unfold simulatePayoffFull
    dsimp only
    rw [hinit, hfinal]
    show List.Chain' (fun p q : MonthPlan => p.remainingDebt < q.remainingDebt)
      (c6trace 600 1 500)
    exact c6trace_chain 600 1 500 (by norm_num)
  · show 500 < ((simulatePayoffFull c6input .avalanche 0 600
      600).1.monthPlans.getD 0 dPlan).remainingDebt
    unfold simulatePayoffFull
    dsimp only
    rw [hinit, hfinal]
    show (500 : ℚ) < ((c6trace 600 1 500).getD 0 dPlan).remainingDebt
    rw [c6trace_unfold_600, List.getD_cons_zero]
    show (500 : ℚ) < 500 * (61/60)
    norm_num

/-! ### Heap model for input immutability (C8)

The claim that `simulatePayoff` never mutates its input accounts is about
JavaScript object mutation, which the pure embedding cannot express.  The
functions below re-run the engine over an explicit object store (`heap`):
the input is a list of references into the heap, the clone step allocates
fresh objects at the end of the heap, and every balance mutation of the
loop is a `writeBal` at a working reference.  Input immutability is then
the statement that the prefix of the heap holding the input objects is
unchanged by the whole call. -/

/-- Read the account object at reference `r`. -/
def readA (h : List Account) (r : Nat) : Account := h.getD r dAccount

/-- Overwrite the balance of the object at reference `r` — the only field
the engine ever assigns to. -/
def writeBal (h : List Account) (r : Nat) (b : ℚ) : List Account :=
  h.set r { readA h r with balance := b }

/-- Heap-level interest accrual over the working references (step 1). -/
def accrueH : List Account → List Nat → List (String × ℚ) →
    List Account × List (String × ℚ) × ℚ
  | h, [], recd => (h, recd, 0)
  | h, r :: rest, recd =>
    if (readA h r).balance ≤ 1/100 then
      accrueH h rest (recordSet recd (readA h r).id 0)
    else
      let i := (readA h r).balance * monthlyRate (readA h r).apr
      let res := accrueH (writeBal h r ((readA h r).balance + i)) rest
        (recordSet recd (readA h r).id i)
      (res.1, res.2.1, i + res.2.2)

/-- Heap-level minimum payments (step 2). -/
def payMinsH : List Account → List Nat →
    List Account × List AllocationRow × ℚ
  | h, [] => (h, [], 0)
  | h, r :: rest =>
    if (readA h r).balance ≤ 1/100 then
      let res := payMinsH h rest
      (res.1, ⟨(readA h r).id, nameOr (readA h r).name, 0, 0, 0⟩ :: res.2.1,
        res.2.2)
    else
      let mp := clamp (readA h r).minPay 0 (readA h r).balance
      let res := payMinsH (writeBal h r ((readA h r).balance - mp)) rest
      (res.1, ⟨(readA h r).id, nameOr (readA h r).name, mp, 0, mp⟩ :: res.2.1,
        mp + res.2.2)

/-- The first working reference whose object has the given id
(`st.find(x => x.id === id)` at heap level). -/
def findRefH (h : List Account) : List Nat → String → Option Nat
  | [], _ => none
  | r :: rest, idv =>
    if (readA h r).id = idv then some r else findRefH h rest idv

/-- Heap-level extra allocation (step 3). -/
def allocExtraH : List Account → List String → List Nat →
    List AllocationRow → ℚ → List Account × List AllocationRow × ℚ
  | h, [], _, rows, _ => (h, rows, 0)
  | h, idv :: rest, refs, rows, extraLeft =>
    if extraLeft ≤ 1/100000 then (h, rows, 0)
    else
      match findRefH h refs idv with
      | none => allocExtraH h rest refs rows extraLeft
      | some r =>
        if (readA h r).balance ≤ 1/100 then
          allocExtraH h rest refs rows extraLeft
        else
          let pay := clamp extraLeft 0 (readA h r).balance
          let rows' := updateFirst (fun x => decide (x.accountId = idv))
            (fun x => { x with extra := x.extra + pay, total := x.total + pay })
            rows
          let res := allocExtraH (writeBal h r ((readA h r).balance - pay))
            rest refs rows' (extraLeft - pay)
          (res.1, res.2.1, pay + res.2.2)

/-- The data produced by one heap-level month step. -/
structure StepResultH where
  heap : List Account
  allocs : List AllocationRow
  interestById : List (String × ℚ)
  accrued : ℚ
  totalMin : ℚ
  totalExtra : ℚ

/-- One heap-level month of the loop body. -/
def stepMonthH (h : List Account) (refs : List Nat) (style : Style)
    (extraMonthly : ℚ) : StepResultH :=
  let ar := accrueH h refs []
  let pm := payMinsH ar.1 refs
  let extraLeft := max 0 extraMonthly
  let order := rankAccounts (refs.map (readA pm.1)) style
  let ax := allocExtraH pm.1 order refs pm.2.1 extraLeft
  ⟨ax.1, ax.2.1, ar.2.1, ar.2.2, pm.2.2, ax.2.2⟩

/-- `sum(st.map(a => a.balance))` over the working references. -/
def totalDebtH (h : List Account) (refs : List Nat) : ℚ :=
  sum ((refs.map (readA h)).map (·.balance))

/-- The month plan row at heap level. -/
def mkMonthPlanH (m : Nat) (r : StepResultH) (refs : List Nat) : MonthPlan :=
  ⟨m,
    List.insertionSort (fun x y => y.total - x.total ≤ 0)
      (r.allocs.filter (fun x => decide ((1 : ℚ)/100000 < x.min + x.extra))),
    r.totalMin, r.totalExtra, r.totalMin + r.totalExtra,
    sumValues r.interestById, totalDebtH r.heap refs⟩

/-- The mutable locals of the heap-level driver loop. -/
structure LoopStH where
  heap : List Account
  totalInterest : ℚ
  monthsToPayoff : Nat
  monthPlans : List MonthPlan
  stalled : Bool

/-- The heap-level driver loop, mirroring `loopGo`. -/
def loopGoH (inputRefs stRefs : List Nat) (style : Style) (extra : ℚ)
    (monthsCap wantMonths : Nat) : Nat → Nat → LoopStH → LoopStH
  | _, 0, s => s
  | m, fuel + 1, s =>
    if totalDebtH s.heap stRefs ≤ 1/100 then { s with monthsToPayoff := m - 1 }
    else
      let r := stepMonthH s.heap stRefs style extra
      let stalled' :=
        if m = 1 then
          if ((inputRefs.map (readA s.heap)).any
                (fun a => decide ((1 : ℚ)/100 < a.balance)))
              && !(decide ((1 : ℚ)/100000 < r.totalMin + r.totalExtra)) then
            true
          else s.stalled
        else s.stalled
      let plans' :=
        if s.monthPlans.length < wantMonths then
          s.monthPlans ++ [mkMonthPlanH m r stRefs]
        else s.monthPlans
      let ti' := s.totalInterest + r.accrued
      if totalDebtH r.heap stRefs ≤ 1/100 then
        ⟨r.heap, ti', m, plans', stalled'⟩
      else
        let mtp := if m = monthsCap then monthsCap else s.monthsToPayoff
        loopGoH inputRefs stRefs style extra monthsCap wantMonths (m + 1) fuel
          ⟨r.heap, ti', mtp, plans', stalled'⟩

/-- `simulatePayoff` at heap level: the clone allocates fresh objects at
the end of the heap, the working references point only at those fresh
objects, and the result is returned together with the final heap. -/
def simulatePayoffH (heap0 : List Account) (inputRefs : List Nat)
    (style : Style) (extraMonthly : ℚ) (monthsCap wantMonths : Nat) :
    SimResult × List Account :=
  let cloned := (inputRefs.map (readA heap0)).map cloneAccount
  let heap1 := heap0 ++ cloned
  let stRefs := ((List.range cloned.length).filter
    (fun k => initKeep (cloned.getD k dAccount))).map
    (fun k => heap0.length + k)
  let initialOrder := rankAccounts (stRefs.map (readA heap1)) style
  let s := loopGoH inputRefs stRefs style extraMonthly monthsCap wantMonths 1
    monthsCap ⟨heap1, 0, 0, [], false⟩
  let stalled :=
    if totalDebtH s.heap stRefs ≤ 1/100 then s.stalled
    else if s.monthsToPayoff = monthsCap then true else s.stalled
  (⟨s.monthsToPayoff, s.totalInterest, initialOrder, s.monthPlans, stalled⟩,
    s.heap)

/-! #### Frame lemmas: all writes stay above the input prefix -/

theorem take_set_le :
    ∀ (l : List α) (i : Nat) (a : α) (n : Nat), n ≤ i →
      (l.set i a).take n = l.take n := by
  intro l
  induction l with
  | nil => intro i a n _; rfl
  | cons x xs ih =>
    intro i a n hn
    cases i with
    | zero =>
      have : n = 0 := Nat.le_zero.mp hn
      subst this
      rfl
    | succ j =>
      cases n with
      | zero => rfl
      | succ k =>
        rw [List.set_cons_succ, List.take_succ_cons, List.take_succ_cons,
          ih j a k (by omega)]

theorem take_writeBal (h : List Account) (r : Nat) (b : ℚ) (n : Nat)
    (hn : n ≤ r) : (writeBal h r b).take n = h.take n :=
  take_set_le h r _ n hn

theorem accrueH_take (n : Nat) :
    ∀ (refs : List Nat) (h : List Account) (recd : List (String × ℚ)),
      (∀ r ∈ refs, n ≤ r) →
      (accrueH h refs recd).1.take n = h.take n := by
  intro refs
  induction refs with
  | nil => intro h recd _; rfl
  | cons r rest ih =>
    intro h recd hr
    rw [accrueH]
    by_cases hb : (readA h r).balance ≤ 1/100
    · rw [if_pos hb]
      exact ih h _ (fun x hx => hr x (List.mem_cons_of_mem r hx))
    · rw [if_neg hb]
      dsimp only
      rw [ih _ _ (fun x hx => hr x (List.mem_cons_of_mem r hx))]
      exact take_writeBal h r _ n (hr r (List.mem_cons_self r rest))

theorem payMinsH_take (n : Nat) :
    ∀ (refs : List Nat) (h : List Account),
      (∀ r ∈ refs, n ≤ r) →
      (payMinsH h refs).1.take n = h.take n := by
  intro refs
  induction refs with
  | nil => intro h _; rfl
  | cons r rest ih =>
    intro h hr
    rw [payMinsH]
    by_cases hb : (readA h r).balance ≤ 1/100
    · rw [if_pos hb]
      exact ih h (fun x hx => hr x (List.mem_cons_of_mem r hx))
    · rw [if_neg hb]
      dsimp only
      rw [ih _ (fun x hx => hr x (List.mem_cons_of_mem r hx))]
      exact take_writeBal h r _ n (hr r (List.mem_cons_self r rest))

theorem findRefH_mem (h : List Account) :
    ∀ (refs : List Nat) (idv : String) (r : Nat),
      findRefH h refs idv = some r → r ∈ refs := by
  intro refs
  induction refs with
  | nil => intro idv r hf; simp [findRefH] at hf
  | cons x rest ih =>
    intro idv r hf
    rw [findRefH] at hf
    by_cases hx : (readA h x).id = idv
    · rw [if_pos hx] at hf
      have : x = r := Option.some_inj.mp hf
      rw [← this]
      exact List.mem_cons_self x rest
    · rw [if_neg hx] at hf
      exact List.mem_cons_of_mem x (ih idv r hf)

theorem allocExtraH_take (n : Nat) :
    ∀ (order : List String) (h : List Account) (refs : List Nat)
      (rows : List AllocationRow) (e : ℚ),
      (∀ r ∈ refs, n ≤ r) →
      (allocExtraH h order refs rows e).1.take n = h.take n := by
  intro order
  induction order with
  | nil => intro h refs rows e _; rfl
  | cons idv rest ih =>
    intro h refs rows e hr
    rw [allocExtraH]
    by_cases he : e ≤ 1/100000
    · rw [if_pos he]
    · rw [if_neg he]
      cases hfind : findRefH h refs idv with
      | none => exact ih h refs rows e hr
      | some r =>
        dsimp only
        by_cases hb : (readA h r).balance ≤ 1/100
        · rw [if_pos hb]
          exact ih h refs rows e hr
        · rw [if_neg hb]
          dsimp only
          rw [ih _ refs _ _ hr]
          exact take_writeBal h r _ n (hr r (findRefH_mem h refs idv r hfind))

theorem stepMonthH_take (n : Nat) (h : List Account) (refs : List Nat)
    (style : Style) (e : ℚ) (hr : ∀ r ∈ refs, n ≤ r) :
    (stepMonthH h refs style e).heap.take n = h.take n := by
  unfold stepMonthH
  dsimp only
  rw [allocExtraH_take n _ _ refs _ _ hr, payMinsH_take n refs _ hr,
    accrueH_take n refs h [] hr]

theorem loopGoH_take (inputRefs stRefs : List Nat) (style : Style)
    (extra : ℚ) (cap want : Nat) (n : Nat)
    (hr : ∀ r ∈ stRefs, n ≤ r) :
    ∀ (fuel m : Nat) (s : LoopStH),
      (loopGoH inputRefs stRefs style extra cap want m fuel s).heap.take n
        = s.heap.take n := by
  intro fuel
  induction fuel with
  | zero => intro m s; rfl
  | succ fuel ih =>
    intro m s
    rw [loopGoH]
    by_cases hpaid : totalDebtH s.heap stRefs ≤ 1/100
    · rw [if_pos hpaid]
    · rw [if_neg hpaid]
      dsimp only
      by_cases hmid : totalDebtH (stepMonthH s.heap stRefs style extra).heap
          stRefs ≤ 1/100
      · rw [if_pos hmid]
        exact stepMonthH_take n s.heap stRefs style extra hr
      · rw [if_neg hmid]
        rw [ih (m + 1) _]
        exact stepMonthH_take n s.heap stRefs style extra hr

theorem getD_take_of_lt (l : List α) :
    ∀ (n i : Nat) (d : α), i < n → (l.take n).getD i d = l.getD i d := by
  induction l with
  | nil => intro n i d _; rw [List.take_nil]
  | cons x xs ih =>
    intro n i d hi
    cases n with
    | zero => omega
    | succ k =>
      rw [List.take_succ_cons]
      cases i with
      | zero => rfl
      | succ j =>
        rw [List.getD_cons_succ, List.getD_cons_succ]
        exact ih k j d (by omega)

/-- **C8.** The input account objects are never mutated by
`simulatePayoff`: in the heap model, where the engine's balance writes are
explicit stores into the object heap, the whole prefix of the heap that
holds the caller's objects is unchanged by the call — the engine works
only on the freshly allocated clones — and in particular every input
reference still reads the exact account record it read before the call. -/
theorem simulate_preserves_input (heap0 : List Account)
    (inputRefs : List Nat) (style : Style) (e : ℚ) (cap want : Nat) :
    (simulatePayoffH heap0 inputRefs style e cap want).2.take heap0.length
      = heap0
    ∧ ∀ r < heap0.length,
        readA (simulatePayoffH heap0 inputRefs style e cap want).2 r
          = readA heap0 r := by
  have hrefs : ∀ r ∈ ((List.range ((inputRefs.map (readA heap0)).map
      cloneAccount).length).filter
      (fun k => initKeep (((inputRefs.map (readA heap0)).map
        cloneAccount).getD k dAccount))).map
      (fun k => heap0.length + k), heap0.length ≤ r := by
    intro r hmem
    rcases List.mem_map.mp hmem with ⟨k, _, rfl⟩
    omega
  have htake : (simulatePayoffH heap0 inputRefs style e cap
      want).2.take heap0.length = heap0 := by
    unfold simulatePayoffH
    dsimp only
    rw [loopGoH_take _ _ style e cap want heap0.length hrefs]
    dsimp only
    rw [List.take_left]
  refine ⟨htake, ?_⟩
  intro r hr
  unfold readA
  rw [← getD_take_of_lt _ heap0.length r dAccount hr, htake]

/-- Witness for C3 at a concrete input. -/
theorem stalled_iff_no_progress_witness :
    ((simulatePayoff [mkAcct "a" 500 20 0] .avalanche 0 600 600).stalled
        = true ↔
      ((1 ≤ 600 ∧ 1/100 < totalDebt (initState [mkAcct "a" 500 20 0])
          ∧ (∃ a ∈ [mkAcct "a" 500 20 0], (1 : ℚ)/100 < a.balance)
          ∧ (stepMonth (initState [mkAcct "a" 500 20 0]) .avalanche 0).totalMin
              + (stepMonth (initState [mkAcct "a" 500 20 0]) .avalanche
                  0).totalExtra ≤ 1/100000)
        ∨ ((simulatePayoff [mkAcct "a" 500 20 0] .avalanche 0 600
              600).monthsToPayoff = 600
            ∧ 1/100 < totalDebt (simulatePayoffFull [mkAcct "a" 500 20 0]
                .avalanche 0 600 600).2))) :=
  stalled_iff_no_progress [mkAcct "a" 500 20 0] .avalanche 0 600 600

/-- Witness for C8 at a concrete heap. -/
theorem simulate_preserves_input_witness :
    (simulatePayoffH [mkAcct "a" 100 12 10] [0] .avalanche 0 600
        600).2.take 1 = [mkAcct "a" 100 12 10]
    ∧ (0 < 1
      ∧ readA (simulatePayoffH [mkAcct "a" 100 12 10] [0] .avalanche 0 600
          600).2 0 = readA [mkAcct "a" 100 12 10] 0) :=
  ⟨(simulate_preserves_input [mkAcct "a" 100 12 10] [0] .avalanche 0 600
      600).1,
    by norm_num,
    (simulate_preserves_input [mkAcct "a" 100 12 10] [0] .avalanche 0 600
      600).2 0 (by norm_num)⟩

end ClearPath
